import Mathlib

/-! # WebGL fluid simulation (`src/web/fluid.js`)

A shallow embedding of the fragment shaders, the frame timer, the frame loop and
the pointer event handlers of `src/web/fluid.js`.

* GLSL `float` values are elements of an ordered field `α`: the kernels run on `ℚ`
  and are reasoned about on `ℚ` and `ℝ`.  Rounding, infinities and NaN of the
  hardware floats are outside the model.
* The GLSL built-ins `exp` and `sqrt` (inside `length`) are parameters of the
  kernels that use them; theorems instantiate them with `Real.exp`, `Real.sqrt`.
* A float division whose divisor can be zero gives `none` at zero: the quotient is an
  infinity or NaN there, which `α` does not have.
* `texture2D(sampler, uv)` is a function from coordinates to a `vec4`.
* JavaScript objects whose fields are mutated become records threaded through the
  handlers.
-/

namespace Fluid

/-! ## GLSL vectors -/

/-- GLSL `vec2`. -/
structure Vec2 (α : Type) where
  x : α
  y : α
deriving DecidableEq

/-- GLSL `vec3`. -/
structure Vec3 (α : Type) where
  x : α
  y : α
  z : α
deriving DecidableEq

/-- GLSL `vec4`. -/
structure Vec4 (α : Type) where
  x : α
  y : α
  z : α
  w : α
deriving DecidableEq

/-- Swizzle `.xy` of a `vec4`. -/
def Vec4.xy {α : Type} (v : Vec4 α) : Vec2 α := ⟨v.x, v.y⟩

/-- Swizzle `.xyz` of a `vec4`. -/
def Vec4.xyz {α : Type} (v : Vec4 α) : Vec3 α := ⟨v.x, v.y, v.z⟩

section VecOps

variable {α : Type} [LinearOrderedField α]

/-- Component-wise `a + b` on `vec2`. -/
def Vec2.add (a b : Vec2 α) : Vec2 α := ⟨a.x + b.x, a.y + b.y⟩

/-- Component-wise `a - b` on `vec2`. -/
def Vec2.sub (a b : Vec2 α) : Vec2 α := ⟨a.x - b.x, a.y - b.y⟩

/-- Component-wise `a * b` on `vec2`. -/
def Vec2.mul (a b : Vec2 α) : Vec2 α := ⟨a.x * b.x, a.y * b.y⟩

/-- Scalar times vector, `s * v`. -/
def Vec2.smul (s : α) (v : Vec2 α) : Vec2 α := ⟨s * v.x, s * v.y⟩

/-- Vector times scalar, `v * s`. -/
def Vec2.muls (v : Vec2 α) (s : α) : Vec2 α := ⟨v.x * s, v.y * s⟩

/-- Vector divided by scalar, `v / s`. -/
def Vec2.divs (v : Vec2 α) (s : α) : Vec2 α := ⟨v.x / s, v.y / s⟩

/-- GLSL `dot` on `vec2`. -/
def Vec2.dot (a b : Vec2 α) : α := a.x * b.x + a.y * b.y

/-- GLSL `length` on `vec2`, with the square root taken as a parameter. -/
def Vec2.length (sqrt : α → α) (v : Vec2 α) : α := sqrt (Vec2.dot v v)

/-- GLSL `max(v, s)` of a `vec2` and a scalar. -/
def Vec2.maxs (v : Vec2 α) (s : α) : Vec2 α := ⟨max v.x s, max v.y s⟩

/-- GLSL `min(v, s)` of a `vec2` and a scalar. -/
def Vec2.mins (v : Vec2 α) (s : α) : Vec2 α := ⟨min v.x s, min v.y s⟩

/-- Component-wise `a + b` on `vec3`. -/
def Vec3.add (a b : Vec3 α) : Vec3 α := ⟨a.x + b.x, a.y + b.y, a.z + b.z⟩

/-- Scalar times vector on `vec3`. -/
def Vec3.smul (s : α) (v : Vec3 α) : Vec3 α := ⟨s * v.x, s * v.y, s * v.z⟩

/-- Scalar times vector on `vec4`. -/
def Vec4.smul (s : α) (v : Vec4 α) : Vec4 α := ⟨s * v.x, s * v.y, s * v.z, s * v.w⟩

end VecOps

/-! ## Shaders -/

section Shaders

variable {α : Type} [LinearOrderedField α]

/-- The varyings written by `baseVertexShader`: the texel coordinate and the
coordinates of its left, right, top and bottom neighbours. -/
structure Varyings (α : Type) where
  vUv : Vec2 α
  vL : Vec2 α
  vR : Vec2 α
  vT : Vec2 α
  vB : Vec2 α

/-- The varyings of `baseVertexShader` (lines 122-129) at vertex position `aPosition`. -/
def baseVertexShader (texelSize aPosition : Vec2 α) : Varyings α :=
  let vUv : Vec2 α := ⟨aPosition.x * (1 / 2) + 1 / 2, aPosition.y * (1 / 2) + 1 / 2⟩
  { vUv := vUv
    vL := Vec2.sub vUv ⟨texelSize.x, 0⟩
    vR := Vec2.add vUv ⟨texelSize.x, 0⟩
    vT := Vec2.add vUv ⟨0, texelSize.y⟩
    vB := Vec2.sub vUv ⟨0, texelSize.y⟩ }

/-- The fragment colour of `splatShader` (lines 154-160).  Line 157 divides by the
uniform `radius`: at `radius = 0` the float quotient is an infinity or NaN, which `α`
does not have, and the result is `none`. -/
def splatShader (exp : α → α) (uTarget : Vec2 α → Vec4 α) (aspectRatio : α)
    (color : Vec3 α) (point : Vec2 α) (radius : α) (vUv : Vec2 α) : Option (Vec4 α) :=
  if radius = 0 then none
  else
    let p : Vec2 α := Vec2.sub vUv point
    let p : Vec2 α := ⟨p.x * aspectRatio, p.y⟩
    let splat : Vec3 α := Vec3.smul (exp (-(Vec2.dot p p) / radius)) color
    let base : Vec3 α := (uTarget vUv).xyz
    let sum : Vec3 α := Vec3.add base splat
    some ⟨sum.x, sum.y, sum.z, 1⟩

/-- The fragment colour of `advectionShader` (lines 172-175). -/
def advectionShader (uVelocity uSource : Vec2 α → Vec4 α) (texelSize : Vec2 α)
    (dt dissipation : α) (vUv : Vec2 α) : Vec4 α :=
  let coord : Vec2 α := Vec2.sub vUv (Vec2.mul (Vec2.smul dt (uVelocity vUv).xy) texelSize)
  Vec4.smul dissipation (uSource coord)

/-- The fragment colour of `divergenceShader` (lines 187-194). -/
def divergenceShader (uVelocity : Vec2 α → Vec4 α) (v : Varyings α) : Vec4 α :=
  let L := (uVelocity v.vL).x
  let R := (uVelocity v.vR).x
  let T := (uVelocity v.vT).y
  let B := (uVelocity v.vB).y
  let div := 1 / 2 * (R - L + T - B)
  ⟨div, 0, 0, 1⟩

/-- The fragment colour of `curlShader` (lines 206-213). -/
def curlShader (uVelocity : Vec2 α → Vec4 α) (v : Varyings α) : Vec4 α :=
  let L := (uVelocity v.vL).y
  let R := (uVelocity v.vR).y
  let T := (uVelocity v.vT).x
  let B := (uVelocity v.vB).x
  let vorticity := R - L - T + B
  ⟨1 / 2 * vorticity, 0, 0, 1⟩

/-- The value of `force` after line 234 of `vorticityShader`, from the four
neighbouring curl samples. -/
def vorticityGradient (L R T B : α) : Vec2 α :=
  Vec2.smul (1 / 2) ⟨|T| - |B|, |R| - |L|⟩

/-- The divisor of line 235 of `vorticityShader`: `length(force) + 0.0001`. -/
def vorticityDenominator (sqrt : α → α) (L R T B : α) : α :=
  Vec2.length sqrt (vorticityGradient L R T B) + 1 / 10000

/-- The value of `force` after line 237 of `vorticityShader`. -/
def vorticityForce (sqrt : α → α) (curl L R T B C : α) : Vec2 α :=
  let force : Vec2 α := vorticityGradient L R T B
  let force : Vec2 α := Vec2.divs force (vorticityDenominator sqrt L R T B)
  let force : Vec2 α := Vec2.muls force (curl * C)
  ⟨force.x, force.y * (-1)⟩

/-- The value of `velocity` after line 239 of `vorticityShader`, before the clamp. -/
def vorticityUnclamped (sqrt : α → α) (uVelocity uCurl : Vec2 α → Vec4 α) (curl dt : α)
    (v : Varyings α) : Vec2 α :=
  let L := (uCurl v.vL).x
  let R := (uCurl v.vR).x
  let T := (uCurl v.vT).x
  let B := (uCurl v.vB).x
  let C := (uCurl v.vUv).x
  let force : Vec2 α := vorticityForce sqrt curl L R T B C
  let velocity : Vec2 α := (uVelocity v.vUv).xy
  Vec2.add velocity (Vec2.muls force dt)

/-- The fragment colour of `vorticityShader` (lines 228-242). -/
def vorticityShader (sqrt : α → α) (uVelocity uCurl : Vec2 α → Vec4 α) (curl dt : α)
    (v : Varyings α) : Vec4 α :=
  let velocity : Vec2 α := vorticityUnclamped sqrt uVelocity uCurl curl dt v
  let velocity : Vec2 α := Vec2.mins (Vec2.maxs velocity (-1000)) 1000
  ⟨velocity.x, velocity.y, 0, 1⟩

/-- The fragment colour of `pressureShader` (lines 255-264). -/
def pressureShader (uPressure uDivergence : Vec2 α → Vec4 α) (v : Varyings α) : Vec4 α :=
  let L := (uPressure v.vL).x
  let R := (uPressure v.vR).x
  let T := (uPressure v.vT).x
  let B := (uPressure v.vB).x
  let _C := (uPressure v.vUv).x
  let divergence := (uDivergence v.vUv).x
  let pressure := (L + R + B + T - divergence) * (1 / 4)
  ⟨pressure, 0, 0, 1⟩

/-- The fragment colour of `gradientSubtractShader` (lines 277-285). -/
def gradientSubtractShader (uPressure uVelocity : Vec2 α → Vec4 α) (v : Varyings α) :
    Vec4 α :=
  let L := (uPressure v.vL).x
  let R := (uPressure v.vR).x
  let T := (uPressure v.vT).x
  let B := (uPressure v.vB).x
  let velocity : Vec2 α := (uVelocity v.vUv).xy
  let velocity : Vec2 α := Vec2.sub velocity ⟨R - L, T - B⟩
  ⟨velocity.x, velocity.y, 0, 1⟩

end Shaders

/-! ## Frame timer -/

/-- `calcDeltaTime` (lines 351-357): `now` is the value of `Date.now()`, the second
argument the variable `lastUpdateTime`.  Returns `dt` and the new `lastUpdateTime`. -/
def calcDeltaTime (now lastUpdateTime : Int) : ℚ × Int :=
  let dt : ℚ := ((now - lastUpdateTime : Int) : ℚ) / 1000
  let dt : ℚ := min dt 0.016666
  (dt, now)

/-! ## Pointers and event handlers -/

/-- The content of a numeric JavaScript property: `undefined` (never written),
`NaN`, or a number. -/
inductive JsNum where
  | undefined
  | nan
  | num (q : ℚ)
deriving DecidableEq

/-- JavaScript `a - b`: an operand that is `undefined` or `NaN` gives `NaN`. -/
def JsNum.sub : JsNum → JsNum → JsNum
  | JsNum.num a, JsNum.num b => JsNum.num (a - b)
  | _, _ => JsNum.nan

/-- JavaScript `a * b`: an operand that is `undefined` or `NaN` gives `NaN`. -/
def JsNum.mul : JsNum → JsNum → JsNum
  | JsNum.num a, JsNum.num b => JsNum.num (a * b)
  | _, _ => JsNum.nan

/-- An instance of `class Pointer` (lines 95-108), with the four properties `x`, `y`,
`dx`, `dy` that the move handlers add to it. -/
structure Pointer where
  id : Int
  texcoordX : ℚ
  texcoordY : ℚ
  prevTexcoordX : ℚ
  prevTexcoordY : ℚ
  deltaX : ℚ
  deltaY : ℚ
  down : Bool
  moved : Bool
  color : List ℚ
  x : JsNum
  y : JsNum
  dx : JsNum
  dy : JsNum
deriving DecidableEq

/-- The object built by `new Pointer()` (lines 96-107); `x`, `y`, `dx`, `dy` are not
assigned by the constructor. -/
def Pointer.new : Pointer :=
  { id := -1
    texcoordX := 0
    texcoordY := 0
    prevTexcoordX := 0
    prevTexcoordY := 0
    deltaX := 0
    deltaY := 0
    down := false
    moved := false
    color := [30, 0, 300]
    x := JsNum.undefined
    y := JsNum.undefined
    dx := JsNum.undefined
    dy := JsNum.undefined }

/-- The array `pointers` after lines 92 and 110. -/
def initialPointers : List Pointer := [Pointer.new]

/-- The result of running an event handler on the array `pointers`: the handler ran
to its end, or it threw a `TypeError` on reading a property of `undefined`; either
way the array is left as mutated so far. -/
inductive Outcome where
  | completed (pointers : List Pointer)
  | threw (pointers : List Pointer)
deriving DecidableEq

/-- The array `pointers` an outcome leaves behind. -/
def Outcome.pointers : Outcome → List Pointer
  | Outcome.completed ps => ps
  | Outcome.threw ps => ps

/-- The four assignments of the body of a move handler (lines 317-321 with
`scale = 5.0`, lines 329-333 with `scale = 8.0`) on one pointer object. -/
def movePointer (scale clientX clientY : ℚ) (pointer : Pointer) : Pointer :=
  let pointer := { pointer with moved := pointer.down }
  let pointer :=
    { pointer with dx := JsNum.mul (JsNum.sub (JsNum.num clientX) pointer.x) (JsNum.num scale) }
  let pointer :=
    { pointer with dy := JsNum.mul (JsNum.sub (JsNum.num clientY) pointer.y) (JsNum.num scale) }
  let pointer := { pointer with x := JsNum.num clientX }
  { pointer with y := JsNum.num clientY }

/-- The `mousemove` listener (lines 315-322). -/
def mousemove (clientX clientY : ℚ) (pointers : List Pointer) : Outcome :=
  match pointers[0]? with
  | none => Outcome.threw pointers
  | some pointer => Outcome.completed (pointers.set 0 (movePointer 5 clientX clientY pointer))

/-- An element of `e.targetTouches`. -/
structure Touch where
  clientX : ℚ
  clientY : ℚ
deriving DecidableEq

/-- The loop of the `touchmove` listener (lines 327-334) from index `i` on, `rest`
being `touches[i], touches[i+1], ...`. -/
def touchmoveLoop : List Touch → Nat → List Pointer → Outcome
  | [], _, pointers => Outcome.completed pointers
  | t :: rest, i, pointers =>
    match pointers[i]? with
    | none => Outcome.threw pointers
    | some pointer =>
      touchmoveLoop rest (i + 1) (pointers.set i (movePointer 8 t.clientX t.clientY pointer))

/-- The `touchmove` listener (lines 324-335). -/
def touchmove (touches : List Touch) (pointers : List Pointer) : Outcome :=
  touchmoveLoop touches 0 pointers

/-- A pointer event delivered to the canvas. -/
inductive PointerEvent where
  | mousemove (clientX clientY : ℚ)
  | touchmove (targetTouches : List Touch)

/-- Dispatch of one event to its listener. -/
def dispatch (pointers : List Pointer) : PointerEvent → Outcome
  | PointerEvent.mousemove cx cy => mousemove cx cy pointers
  | PointerEvent.touchmove ts => touchmove ts pointers

/-- The array `pointers` after the events of a list were delivered in order; an
exception ends its handler only. -/
def deliver (events : List PointerEvent) (pointers : List Pointer) : List Pointer :=
  events.foldl (fun ps e => (dispatch ps e).pointers) pointers

/-- Whether the last move event changed the position of the pointer: `dx` or `dy` is
not the number zero. -/
def Pointer.displaced (p : Pointer) : Bool :=
  decide (p.dx ≠ JsNum.num 0) || decide (p.dy ≠ JsNum.num 0)

/-! ## Frame loop -/

/-- The keys of the table `programs` (lines 295-304). -/
inductive Program where
  | display
  | splat
  | advection
  | divergence
  | curl
  | vorticity
  | pressure
  | gradientSubtract
deriving DecidableEq

/-- The mutable variables of `startFluidSimulation`, with two records of effects: the
fragment programs run so far and the number of frames requested from the host. -/
structure State (σ : Type) where
  canvasWidth : Nat
  canvasHeight : Nat
  pointers : List Pointer
  splatStack : List σ
  lastUpdateTime : Int
  programsRun : List Program
  framesRequested : Nat

/-- What a frame reads from the host: `Date.now()`, `window.innerWidth` and
`window.innerHeight`. -/
structure Host where
  now : Int
  innerWidth : Nat
  innerHeight : Nat

/-- `resizeCanvas` (lines 80-87): the state after the call, and whether the value of
the call is truthy.  The function has no `return`, so the call evaluates to `undefined`. -/
def resizeCanvas {σ : Type} (host : Host) (s : State σ) : State σ × Bool :=
  let width := host.innerWidth
  let height := host.innerHeight
  if s.canvasWidth ≠ width ∨ s.canvasHeight ≠ height then
    ({ s with canvasWidth := width, canvasHeight := height }, false)
  else (s, false)

/-- `updatePointerDownData` (lines 359-361): the body is empty. -/
def updatePointerDownData {σ : Type} (s : State σ) : State σ := s

/-- `updatePointerMoveData` (lines 363-365): the body is empty. -/
def updatePointerMoveData {σ : Type} (s : State σ) : State σ := s

/-- The call `requestAnimationFrame(update)` of line 348. -/
def requestAnimationFrame {σ : Type} (s : State σ) : State σ :=
  { s with framesRequested := s.framesRequested + 1 }

/-- `update` (lines 340-349): one frame.  The branch of line 342, commented
`// Handle resize`, is empty. -/
def update {σ : Type} (host : Host) (s : State σ) : State σ :=
  let r := calcDeltaTime host.now s.lastUpdateTime
  let _dt : ℚ := r.1
  let s := { s with lastUpdateTime := r.2 }
  let resized := resizeCanvas host s
  let s := if resized.2 then resized.1 else resized.1
  let s := updatePointerDownData s
  let s := updatePointerMoveData s
  requestAnimationFrame s

/-- The state when `startFluidSimulation` reaches the call `update()` of line 367. -/
def initialState (σ : Type) (host : Host) : State σ :=
  { canvasWidth := host.innerWidth
    canvasHeight := host.innerHeight
    pointers := initialPointers
    splatStack := []
    lastUpdateTime := host.now
    programsRun := []
    framesRequested := 0 }

/-- The state after `startFluidSimulation` and the frames that follow its call
`update()`: one call of `update` for each entry of `hosts`, in order. -/
def frames (σ : Type) (host : Host) (hosts : List Host) : State σ :=
  hosts.foldl (fun s h => update h s) (initialState σ host)

/-! ## Repeated advection -/

section Advection

variable {α : Type} [LinearOrderedField α]

/-- The uniforms of one advection pass other than the source and the dissipation. -/
structure AdvectionStep (α : Type) where
  uVelocity : Vec2 α → Vec4 α
  texelSize : Vec2 α
  dt : α

/-- One advection pass: the field written by `advectionShader`, read back as the
source of the next pass. -/
def advect (dissipation : α) (step : AdvectionStep α) (uSource : Vec2 α → Vec4 α) :
    Vec2 α → Vec4 α :=
  fun vUv => advectionShader step.uVelocity uSource step.texelSize step.dt dissipation vUv

/-- Advection passes run one after the other, each reading what the previous wrote. -/
def advectRepeated (dissipation : α) (steps : List (AdvectionStep α))
    (uSource : Vec2 α → Vec4 α) : Vec2 α → Vec4 α :=
  steps.foldl (fun source step => advect dissipation step source) uSource

end Advection

/-! ## Textures and full-screen passes -/

section Grid

variable {α : Type} [LinearOrderedField α] [FloorRing α]

/-- Modelled from the spec: the texture set-up is not in the file.  Section 4.3 has
boundary cells use the nearest interior value: an index outside `0 .. n-1` is moved
to the nearest index inside. -/
def clampToEdge (n : Nat) (i : Int) : Int := max 0 (min ((n : Int) - 1) i)

/-- Modelled from the spec: the texture set-up is not in the file.  A field (data
model, section 3) is a grid of `W` by `H` texels; `texture2D` at `uv` returns the texel
whose cell holds `uv`, the index being brought into the grid by the addressing `addr`. -/
def texture2D (addr : Nat → Int → Int) (W H : Nat) (tex : Int → Int → Vec4 α)
    (uv : Vec2 α) : Vec4 α :=
  tex (addr W ⌊uv.x * (W : α)⌋) (addr H ⌊uv.y * (H : α)⌋)

/-- Modelled from the spec: the draw call is not in the file.  The uniform
`texelSize` of a `W` by `H` grid: one grid cell (section 4.3, stage 1). -/
def texelSize (W H : Nat) : Vec2 α := ⟨1 / (W : α), 1 / (H : α)⟩

/-- Modelled from the spec: the draw call is not in the file.  The value of
`aPosition` interpolated at the centre of texel `(i, j)` of a full-screen quad. -/
def texelCentre (W H : Nat) (i j : Int) : Vec2 α :=
  ⟨(2 * (i : α) + 1) / (W : α) - 1, (2 * (j : α) + 1) / (H : α) - 1⟩

/-- Modelled from the spec: the draw call is not in the file.  A stage of section 4.3
writes, at every texel, the colour its fragment shader computes from the varyings of
`baseVertexShader` there. -/
def renderPass (W H : Nat) (fragment : Varyings α → Vec4 α) : Int → Int → Vec4 α :=
  fun i j => fragment (baseVertexShader (texelSize W H) (texelCentre W H i j))

/-- The divergence stage: `divergenceShader` over the grid. -/
def divergencePass (addr : Nat → Int → Int) (W H : Nat) (velocity : Int → Int → Vec4 α) :
    Int → Int → Vec4 α :=
  renderPass W H (divergenceShader (texture2D addr W H velocity))

/-- One Jacobi iteration: `pressureShader` over the grid. -/
def pressurePass (addr : Nat → Int → Int) (W H : Nat)
    (divergence pressure : Int → Int → Vec4 α) : Int → Int → Vec4 α :=
  renderPass W H (pressureShader (texture2D addr W H pressure) (texture2D addr W H divergence))

/-- The gradient-subtraction stage: `gradientSubtractShader` over the grid. -/
def gradientSubtractPass (addr : Nat → Int → Int) (W H : Nat)
    (pressure velocity : Int → Int → Vec4 α) : Int → Int → Vec4 α :=
  renderPass W H
    (gradientSubtractShader (texture2D addr W H pressure) (texture2D addr W H velocity))

/-- A texture cleared to zero. -/
def zeroTexture : Int → Int → Vec4 α := fun _ _ => ⟨0, 0, 0, 0⟩

/-- The pressure after `N` Jacobi iterations from a zero pressure field. -/
def jacobi (addr : Nat → Int → Int) (W H N : Nat) (divergence : Int → Int → Vec4 α) :
    Int → Int → Vec4 α :=
  (pressurePass addr W H divergence)^[N] zeroTexture

/-- The projection: divergence, `N` Jacobi iterations from a zero pressure field,
gradient subtraction. -/
def project (addr : Nat → Int → Int) (W H N : Nat) (velocity : Int → Int → Vec4 α) :
    Int → Int → Vec4 α :=
  let divergence := divergencePass addr W H velocity
  let pressure := jacobi addr W H N divergence
  gradientSubtractPass addr W H pressure velocity

/-- The sum over the `W` by `H` grid of the square of the first component. -/
def sumSquares (W H : Nat) (f : Int → Int → Vec4 α) : α :=
  ∑ i in Finset.range W, ∑ j in Finset.range H, (f i j).x ^ 2

/-- The root-mean-square magnitude of the first component over the `W` by `H` grid,
with the square root taken as a parameter. -/
def rms (sqrt : α → α) (W H : Nat) (f : Int → Int → Vec4 α) : α :=
  sqrt (sumSquares W H f / ((W : α) * (H : α)))

/-- The texture holding the listed rows: texel `(i, j)` is `(a, b, 0, 0)` for the
`i`-th pair `(a, b)` of the `j`-th row, and zero outside the lists. -/
def textureOfRows (rows : List (List (α × α))) : Int → Int → Vec4 α :=
  fun i j =>
    match (rows.getD j.toNat []).get? i.toNat with
    | some (a, b) => ⟨a, b, 0, 0⟩
    | none => ⟨0, 0, 0, 0⟩

end Grid

/-! ## Auxiliary definitions for the proofs -/

/-- No pointer of the list is down or marked as moved. -/
def Idle (ps : List Pointer) : Prop := ∀ p ∈ ps, p.down = false ∧ p.moved = false

/-- A pointer object whose `down` flag is set and whose position is `(5, 5)`. -/
def heldPointer : Pointer :=
  { Pointer.new with down := true, x := JsNum.num 5, y := JsNum.num 5 }

/-- The texel of `tex` that the addressing `addr` selects for the index `(i, j)`. -/
def cell {α : Type} (addr : Nat → Int → Int) (W H : Nat) (tex : Int → Int → Vec4 α)
    (i j : Int) : Vec4 α :=
  tex (addr W i) (addr H j)

/-- Wrap-around addressing, an index taken modulo `n`.  It is not the addressing of the
system (section 4.3 of the spec has the nearest interior value, `clampToEdge`); the
proofs compare with it, since away from the edge both address the same texel. -/
def repeatWrap (n : Nat) (i : Int) : Int := i % (n : Int)

/-- The index `(i, j)` is a texel of the `W` by `H` grid. -/
def inGrid (W H : Nat) (i j : Int) : Prop := 0 ≤ i ∧ i < W ∧ 0 ≤ j ∧ j < H

/-- The index `(i, j)` lies in one of the `m` outermost columns or rows of the grid. -/
def nearEdge (m W H : Nat) (i j : Int) : Prop :=
  i < m ∨ (W : Int) - m ≤ i ∨ j < m ∨ (H : Int) - m ≤ j

/-- The first two components of the texture vanish on the `m` outermost columns and
rows of the grid. -/
def ZeroNear {α : Type} [LinearOrderedField α] (m W H : Nat) (T : Int → Int → Vec4 α) : Prop :=
  ∀ i j, inGrid W H i j → nearEdge m W H i j → (T i j).x = 0 ∧ (T i j).y = 0

/-- Two textures have the same first two components at every texel of the grid. -/
def AgreeOn {α : Type} (W H : Nat) (T T' : Int → Int → Vec4 α) : Prop :=
  ∀ i j, inGrid W H i j → (T i j).x = (T' i j).x ∧ (T i j).y = (T' i j).y

/-- An addressing that leaves the indices of the grid alone and sends the index just
outside to the first or the last index of the grid. -/
def EdgeAddressing (addr : Nat → Int → Int) : Prop :=
  ∀ (n : Nat) (i : Int), 0 < n →
    (0 ≤ i → i < n → addr n i = i) ∧
      (i = -1 ∨ i = n → addr n i = 0 ∨ addr n i = (n : Int) - 1)

/-- A row of four texels with x velocities `0, 1, 0, 1` and no y velocity. -/
def zigzag {α : Type} [LinearOrderedField α] : Int → Int → Vec4 α :=
  textureOfRows [[(0, 0), (1, 0), (0, 0), (1, 0)]]

/-- The velocity field that is `(1, 0)` at texel `(3, 3)` and zero elsewhere. -/
def impulse {α : Type} [LinearOrderedField α] : Int → Int → Vec4 α :=
  fun i j => if i = 3 ∧ j = 3 then ⟨1, 0, 0, 0⟩ else ⟨0, 0, 0, 0⟩

/-- The texture read on the torus `ZMod W × ZMod H`: the texel at the representatives
of the two residues. -/
def onTorus {β : Type} (W H : Nat) (T : Int → Int → β) (x : ZMod W × ZMod H) : β :=
  T (x.1.val : Int) (x.2.val : Int)

/-- The sum of `f x * ψ (-x)` over a finite abelian group: the Fourier coefficient of
`f` at `ψ` when `ψ` is a character. -/
def fourierSum {G K : Type} [AddCommGroup G] [Fintype G] [CommRing K] (f ψ : G → K) : K :=
  ∑ x, f x * ψ (-x)

/-! ## Frame timer (C1) -/

/-- C1 (counterexample): with `lastUpdateTime = 0` and `now = 100` (a frame delta of
100 ms) `calcDeltaTime` does not return `min((now - lastUpdateTime)/1000, 1/60)`: it
returns `0.016666`, which is not `1/60`. -/
theorem calcDeltaTime_ne_one_sixtieth :
    (0 : Int) ≤ 100 ∧
      (calcDeltaTime 100 0).1 ≠ min ((((100 : Int) - 0 : Int) : ℚ) / 1000) (1 / 60) := by
  refine ⟨by decide, ?_⟩
  simp only [calcDeltaTime]
  norm_num

/-- C1 (amended): for all timestamps `calcDeltaTime` returns
`min((now - lastUpdateTime)/1000, 0.016666)` and stores `now`; frame deltas of 100 ms,
1000 ms and 5 ms give `0.016666`, `0.016666` and `0.005`. -/
theorem calcDeltaTime_eq (now lastUpdateTime : Int) :
    calcDeltaTime now lastUpdateTime
        = (min (((now : ℚ) - (lastUpdateTime : ℚ)) / 1000) (16666 / 1000000), now) ∧
      (calcDeltaTime (lastUpdateTime + 100) lastUpdateTime).1 = 16666 / 1000000 ∧
      (calcDeltaTime (lastUpdateTime + 1000) lastUpdateTime).1 = 16666 / 1000000 ∧
      (calcDeltaTime (lastUpdateTime + 5) lastUpdateTime).1 = 5 / 1000 := by
  refine ⟨?_, ?_, ?_, ?_⟩
  · simp only [calcDeltaTime, Int.cast_sub]
    norm_num
  · simp only [calcDeltaTime, add_sub_cancel_left]
    norm_num
  · simp only [calcDeltaTime, add_sub_cancel_left]
    norm_num
  · simp only [calcDeltaTime, add_sub_cancel_left]
    norm_num

/-! ## Splat and gradient subtraction (C2, C3) -/

/-- C2 (counterexample): at `vUv = (1, 0)`, `point = (0, 0)`, `aspectRatio = 1`,
`radius = 2 > 0`, `color = (1, 0, 0)` over a zero target, `splatShader` writes a colour
whose red channel is not `base + exp(-d^2 / radius^2) * value` (it is `exp(-1/2)`, not
`exp(-1/4)`). -/
theorem splatShader_ne_radius_squared :
    (0 : ℝ) < 2 ∧
      ∃ out, splatShader Real.exp (fun _ => ⟨0, 0, 0, 0⟩) 1 ⟨1, 0, 0⟩ ⟨0, 0⟩ 2 ⟨1, 0⟩ = some out ∧
        out.x ≠ 0 + Real.exp (-((1 * (1 - 0)) ^ 2 + (0 - 0) ^ 2) / 2 ^ 2) * 1 := by
  refine ⟨by norm_num, ⟨Real.exp (-(1 : ℝ) / 2), 0, 0, 1⟩, ?_, ?_⟩
  · simp only [splatShader, Vec2.sub, Vec2.dot, Vec3.smul, Vec3.add, Vec4.xyz]
    norm_num
  · norm_num

/-- C2 (amended): for `radius > 0`, `splatShader` writes `base + exp(-d^2 / radius) * value`
in the three colour channels and `1` in the fourth, where
`d^2 = (aspectRatio * (uv.x - point.x))^2 + (uv.y - point.y)^2`: the divisor is the
uniform `radius` itself. -/
theorem splatShader_eq {α : Type} [LinearOrderedField α] (exp : α → α)
    (uTarget : Vec2 α → Vec4 α) (aspectRatio : α) (color : Vec3 α) (point : Vec2 α)
    (radius : α) (vUv : Vec2 α) (hr : 0 < radius) :
    splatShader exp uTarget aspectRatio color point radius vUv =
      (let d2 := (aspectRatio * (vUv.x - point.x)) ^ 2 + (vUv.y - point.y) ^ 2
       let g := exp (-d2 / radius)
       some ⟨(uTarget vUv).x + g * color.x, (uTarget vUv).y + g * color.y,
        (uTarget vUv).z + g * color.z, 1⟩) := by
  simp only [splatShader, if_neg hr.ne', Vec2.sub, Vec2.dot, Vec3.smul, Vec3.add, Vec4.xyz]
  have h : (vUv.x - point.x) * aspectRatio * ((vUv.x - point.x) * aspectRatio)
      + (vUv.y - point.y) * (vUv.y - point.y)
      = (aspectRatio * (vUv.x - point.x)) ^ 2 + (vUv.y - point.y) ^ 2 := by ring
  rw [h]

/-- C2 (witness): a splat of colour `(1, 0, 0)` and `radius = 1/4` centred at
`(1/2, 1/2)`, evaluated with the rational stand-in `x ↦ 1 / (1 - x)` for `exp` at the
texel `(3/4, 1/2)` of a target holding `(1/10, 2/10, 3/10)`: the weight is
`1 / (1 + (1/16) / (1/4)) = 4/5`. -/
theorem splatShader_eq_witness :
    (0 : ℚ) < 1 / 4 ∧
      splatShader (fun x : ℚ => 1 / (1 - x)) (fun _ => ⟨1 / 10, 2 / 10, 3 / 10, 1⟩) 1 ⟨1, 0, 0⟩
          ⟨1 / 2, 1 / 2⟩ (1 / 4) ⟨3 / 4, 1 / 2⟩
        = some ⟨9 / 10, 2 / 10, 3 / 10, 1⟩ := by
  refine ⟨by norm_num, ?_⟩
  rw [splatShader_eq _ _ _ _ _ _ _ (by norm_num)]
  norm_num

/-- C3 (counterexample): for a zero velocity and pressure samples `pL = 0`, `pR = 1`,
`pT = 0`, `pB = 0` the x component written by `gradientSubtractShader` is `-1`, not
`vel.x - 0.5 * (pR - pL) = -1/2`. -/
theorem gradientSubtractShader_ne_half :
    (gradientSubtractShader
        (fun uv : Vec2 ℚ => if uv = ⟨1, 0⟩ then (⟨1, 0, 0, 0⟩ : Vec4 ℚ) else ⟨0, 0, 0, 0⟩)
        (fun _ => ⟨0, 0, 0, 0⟩)
        { vUv := ⟨0, 0⟩, vL := ⟨-1, 0⟩, vR := ⟨1, 0⟩, vT := ⟨0, 1⟩, vB := ⟨0, -1⟩ }).x
      ≠ 0 - 1 / 2 * (1 - 0) := by
  simp [gradientSubtractShader, Vec2.sub, Vec4.xy]
  norm_num

/-- C3 (amended): `gradientSubtractShader` writes `vel - (pR - pL, pT - pB)`, the
pressure differences taken whole, followed by `0` and `1`. -/
theorem gradientSubtractShader_eq {α : Type} [LinearOrderedField α]
    (uPressure uVelocity : Vec2 α → Vec4 α) (v : Varyings α) :
    gradientSubtractShader uPressure uVelocity v =
      ⟨(uVelocity v.vUv).x - ((uPressure v.vR).x - (uPressure v.vL).x),
       (uVelocity v.vUv).y - ((uPressure v.vT).x - (uPressure v.vB).x), 0, 1⟩ := by
  simp only [gradientSubtractShader, Vec2.sub, Vec4.xy]

/-! ## Advection and vorticity confinement (C5, C6, C7) -/

theorem advectRepeated_const {α : Type} [LinearOrderedField α] (c : Vec4 α)
    (steps : List (AdvectionStep α)) (uSource : Vec2 α → Vec4 α)
    (hsrc : ∀ uv, uSource uv = c) : ∀ uv, advectRepeated 1 steps uSource uv = c := by
  induction steps generalizing uSource with
  | nil => simpa [advectRepeated] using hsrc
  | cons st rest ih =>
    intro uv
    have h : ∀ uv, advect 1 st uSource uv = c := by
      intro uv
      simp [advect, advectionShader, Vec4.smul, hsrc]
    simpa [advectRepeated] using ih (advect 1 st uSource) h uv

/-- C5: with `dissipation = 1`, `advectionShader` over a source that is `c` at every
sample position writes `c` at every texel, for every velocity field, texel size and
timestep (those of `(0, 1/60]` among them); and so does any sequence of such advection
passes. -/
theorem advectionShader_const {α : Type} [LinearOrderedField α] (c : Vec4 α)
    (uVelocity uSource : Vec2 α → Vec4 α) (texel : Vec2 α) (dt : α)
    (steps : List (AdvectionStep α)) (hsrc : ∀ uv, uSource uv = c) :
    (∀ vUv, advectionShader uVelocity uSource texel dt 1 vUv = c) ∧
      (∀ vUv, advectRepeated 1 steps uSource vUv = c) := by
  refine ⟨?_, advectRepeated_const c steps uSource hsrc⟩
  intro vUv
  simp [advectionShader, Vec4.smul, hsrc]

/-- C5 (witness): the field `(3, 1, 4, 1)` advected with `dt = 1/100` by a rotating
velocity field, and then twice more with `dt = 1/60` and `dt = 1/200`. -/
theorem advectionShader_const_witness :
    (∀ uv : Vec2 ℚ, (fun _ : Vec2 ℚ => (⟨3, 1, 4, 1⟩ : Vec4 ℚ)) uv = ⟨3, 1, 4, 1⟩) ∧
      (∀ vUv : Vec2 ℚ,
        advectionShader (fun uv => ⟨uv.y, -uv.x, 0, 1⟩) (fun _ => ⟨3, 1, 4, 1⟩) ⟨1 / 128, 1 / 128⟩
          (1 / 100) 1 vUv = ⟨3, 1, 4, 1⟩) ∧
      (∀ vUv : Vec2 ℚ,
        advectRepeated 1
          [⟨fun uv => ⟨uv.y, -uv.x, 0, 1⟩, ⟨1 / 128, 1 / 128⟩, 1 / 60⟩,
           ⟨fun _ => ⟨5, 5, 0, 1⟩, ⟨1 / 128, 1 / 128⟩, 1 / 200⟩]
          (fun _ => ⟨3, 1, 4, 1⟩) vUv = ⟨3, 1, 4, 1⟩) :=
  ⟨fun _ => rfl,
   advectionShader_const ⟨3, 1, 4, 1⟩ (fun uv => ⟨uv.y, -uv.x, 0, 1⟩) (fun _ => ⟨3, 1, 4, 1⟩)
     ⟨1 / 128, 1 / 128⟩ (1 / 100)
     [⟨fun uv => ⟨uv.y, -uv.x, 0, 1⟩, ⟨1 / 128, 1 / 128⟩, 1 / 60⟩,
      ⟨fun _ => ⟨5, 5, 0, 1⟩, ⟨1 / 128, 1 / 128⟩, 1 / 200⟩]
     (fun _ => rfl)⟩

/-- C6: over the reals, both velocity components written by `vorticityShader` lie in
`[-1000, 1000]` and the divisor `length(force) + 0.0001` is not zero, for all samples,
curl strengths and timesteps. -/
theorem vorticityShader_clamped (uVelocity uCurl : Vec2 ℝ → Vec4 ℝ) (curl dt : ℝ)
    (v : Varyings ℝ) :
    (-1000 ≤ (vorticityShader Real.sqrt uVelocity uCurl curl dt v).x ∧
      (vorticityShader Real.sqrt uVelocity uCurl curl dt v).x ≤ 1000) ∧
    (-1000 ≤ (vorticityShader Real.sqrt uVelocity uCurl curl dt v).y ∧
      (vorticityShader Real.sqrt uVelocity uCurl curl dt v).y ≤ 1000) ∧
    vorticityDenominator Real.sqrt (uCurl v.vL).x (uCurl v.vR).x (uCurl v.vT).x
      (uCurl v.vB).x ≠ 0 := by
  refine ⟨⟨?_, ?_⟩, ⟨?_, ?_⟩, ?_⟩
  · simp only [vorticityShader, Vec2.mins, Vec2.maxs]
    exact le_min (le_max_right _ _) (by norm_num)
  · simp only [vorticityShader, Vec2.mins, Vec2.maxs]
    exact min_le_right _ _
  · simp only [vorticityShader, Vec2.mins, Vec2.maxs]
    exact le_min (le_max_right _ _) (by norm_num)
  · simp only [vorticityShader, Vec2.mins, Vec2.maxs]
    exact min_le_right _ _
  · have h := Real.sqrt_nonneg (Vec2.dot
      (vorticityGradient (uCurl v.vL).x (uCurl v.vR).x (uCurl v.vT).x (uCurl v.vB).x)
      (vorticityGradient (uCurl v.vL).x (uCurl v.vR).x (uCurl v.vT).x (uCurl v.vB).x))
    simp only [vorticityDenominator, Vec2.length]
    positivity

/-- C7 (counterexample): for curl samples `L = 0`, `R = 1`, `T = 0`, `B = 0`, `C = 1`
and `curl = 1` the x component of the force of `vorticityShader` is `0`, while
`curlStrength * C * g.x / (|g| + 0.0001)` with `g = 0.5 * (|R| - |L|, |T| - |B|)` is
not. -/
theorem vorticityForce_ne_gradient :
    (vorticityForce Real.sqrt 1 0 1 0 0 1).x ≠
      1 * 1 * (1 / 2 * (|(1 : ℝ)| - |(0 : ℝ)|)) /
        (Real.sqrt ((1 / 2 * (|(1 : ℝ)| - |(0 : ℝ)|)) ^ 2 + (1 / 2 * (|(0 : ℝ)| - |(0 : ℝ)|)) ^ 2)
          + 1 / 10000) := by
  have hx : (vorticityForce Real.sqrt 1 0 1 0 0 1).x = 0 := by
    simp [vorticityForce, vorticityGradient, Vec2.smul, Vec2.divs, Vec2.muls]
  rw [hx]
  have h := Real.sqrt_nonneg ((1 / 2 * (|(1 : ℝ)| - |(0 : ℝ)|)) ^ 2
    + (1 / 2 * (|(0 : ℝ)| - |(0 : ℝ)|)) ^ 2)
  have hpos : (0 : ℝ) < 1 * 1 * (1 / 2 * (|(1 : ℝ)| - |(0 : ℝ)|)) /
        (Real.sqrt ((1 / 2 * (|(1 : ℝ)| - |(0 : ℝ)|)) ^ 2 + (1 / 2 * (|(0 : ℝ)| - |(0 : ℝ)|)) ^ 2)
          + 1 / 10000) := by
    apply div_pos
    · norm_num
    · positivity
  exact ne_of_lt hpos

/-- C7 (amended): with `f = 0.5 * (|curl_T| - |curl_B|, |curl_R| - |curl_L|)` (x from the
top/bottom neighbours, y from the left/right neighbours) the force of `vorticityShader`
is `(curl * C * f.x / (|f| + 0.0001), -(curl * C * f.y / (|f| + 0.0001)))`, and the
velocity before the clamp is the input velocity plus `dt` times that force. -/
theorem vorticityForce_eq {α : Type} [LinearOrderedField α] (sqrt : α → α)
    (uVelocity uCurl : Vec2 α → Vec4 α) (curl dt : α) (v : Varyings α) :
    (let L := (uCurl v.vL).x
     let R := (uCurl v.vR).x
     let T := (uCurl v.vT).x
     let B := (uCurl v.vB).x
     let C := (uCurl v.vUv).x
     let fx := 1 / 2 * (|T| - |B|)
     let fy := 1 / 2 * (|R| - |L|)
     let len := sqrt (fx ^ 2 + fy ^ 2)
     let force : Vec2 α := ⟨curl * C * fx / (len + 1 / 10000), -(curl * C * fy / (len + 1 / 10000))⟩
     vorticityForce sqrt curl L R T B C = force ∧
     vorticityUnclamped sqrt uVelocity uCurl curl dt v
       = ⟨(uVelocity v.vUv).x + force.x * dt, (uVelocity v.vUv).y + force.y * dt⟩) := by
  have hlen : ∀ a b : α, sqrt (a * a + b * b) = sqrt (a ^ 2 + b ^ 2) := by
    intro a b
    rw [pow_two, pow_two]
  have hf : vorticityForce sqrt curl (uCurl v.vL).x (uCurl v.vR).x (uCurl v.vT).x
      (uCurl v.vB).x (uCurl v.vUv).x =
      ⟨curl * (uCurl v.vUv).x * (1 / 2 * (|(uCurl v.vT).x| - |(uCurl v.vB).x|)) /
          (sqrt ((1 / 2 * (|(uCurl v.vT).x| - |(uCurl v.vB).x|)) ^ 2
            + (1 / 2 * (|(uCurl v.vR).x| - |(uCurl v.vL).x|)) ^ 2) + 1 / 10000),
        -(curl * (uCurl v.vUv).x * (1 / 2 * (|(uCurl v.vR).x| - |(uCurl v.vL).x|)) /
          (sqrt ((1 / 2 * (|(uCurl v.vT).x| - |(uCurl v.vB).x|)) ^ 2
            + (1 / 2 * (|(uCurl v.vR).x| - |(uCurl v.vL).x|)) ^ 2) + 1 / 10000))⟩ := by
    simp only [vorticityForce, vorticityDenominator, vorticityGradient, Vec2.smul, Vec2.divs,
      Vec2.muls, Vec2.length, Vec2.dot, hlen]
    congr 1 <;> ring
  refine ⟨hf, ?_⟩
  simp only [vorticityUnclamped, hf, Vec2.add, Vec2.muls, Vec4.xy]

/-! ## Frame loop and pointer events (C8, C9, C10) -/

/-! ### Pointer invariants -/

theorem movePointer_down (scale cx cy : ℚ) (p : Pointer) :
    (movePointer scale cx cy p).down = p.down ∧ (movePointer scale cx cy p).moved = p.down := by
  simp [movePointer]

theorem idle_set (ps : List Pointer) (i : Nat) (scale cx cy : ℚ) (p : Pointer)
    (hp : ps[i]? = some p) (h : Idle ps) : Idle (ps.set i (movePointer scale cx cy p)) := by
  intro q hq
  have hpmem : p ∈ ps := List.getElem?_mem hp
  rcases List.mem_or_eq_of_mem_set hq with hq | hq
  · exact h q hq
  · subst hq
    have := movePointer_down scale cx cy p
    rw [this.1, this.2]
    exact ⟨(h p hpmem).1, (h p hpmem).1⟩

theorem touchmoveLoop_idle (touches : List Touch) :
    ∀ (i : Nat) (ps : List Pointer), Idle ps → Idle (touchmoveLoop touches i ps).pointers := by
  induction touches with
  | nil => intro i ps h; simpa [touchmoveLoop, Outcome.pointers] using h
  | cons t rest ih =>
    intro i ps h
    unfold touchmoveLoop
    cases hp : ps[i]? with
    | none => simpa [Outcome.pointers] using h
    | some p => exact ih (i + 1) _ (idle_set ps i 8 t.clientX t.clientY p hp h)

theorem touchmoveLoop_length (touches : List Touch) :
    ∀ (i : Nat) (ps : List Pointer), (touchmoveLoop touches i ps).pointers.length = ps.length := by
  induction touches with
  | nil => intro i ps; simp [touchmoveLoop, Outcome.pointers]
  | cons t rest ih =>
    intro i ps
    unfold touchmoveLoop
    cases hp : ps[i]? with
    | none => simp [Outcome.pointers]
    | some p => simpa using ih (i + 1) (ps.set i (movePointer 8 t.clientX t.clientY p))

theorem dispatch_idle (ps : List Pointer) (e : PointerEvent) (h : Idle ps) :
    Idle (dispatch ps e).pointers := by
  cases e with
  | mousemove cx cy =>
    simp only [dispatch, mousemove]
    cases hp : ps[0]? with
    | none => simpa [Outcome.pointers] using h
    | some p => simpa [Outcome.pointers] using idle_set ps 0 5 cx cy p hp h
  | touchmove ts => exact touchmoveLoop_idle ts 0 ps h

theorem dispatch_length (ps : List Pointer) (e : PointerEvent) :
    (dispatch ps e).pointers.length = ps.length := by
  cases e with
  | mousemove cx cy =>
    simp only [dispatch, mousemove]
    cases hp : ps[0]? with
    | none => simp [Outcome.pointers]
    | some p => simp [Outcome.pointers]
  | touchmove ts => exact touchmoveLoop_length ts 0 ps

theorem deliver_idle (events : List PointerEvent) :
    ∀ ps : List Pointer, Idle ps → Idle (deliver events ps) := by
  induction events with
  | nil => intro ps h; simpa [deliver] using h
  | cons e rest ih =>
    intro ps h
    simpa [deliver] using ih _ (dispatch_idle ps e h)

theorem deliver_length (events : List PointerEvent) :
    ∀ ps : List Pointer, (deliver events ps).length = ps.length := by
  induction events with
  | nil => intro ps; simp [deliver]
  | cons e rest ih =>
    intro ps
    have := ih (dispatch ps e).pointers
    simp only [deliver, List.foldl_cons] at this ⊢
    rw [this, dispatch_length]

theorem idle_initialPointers : Idle initialPointers := by
  intro p hp
  simp only [initialPointers, List.mem_singleton] at hp
  subst hp
  exact ⟨rfl, rfl⟩

theorem update_eq {σ : Type} (host : Host) (s : State σ) :
    (update host s).lastUpdateTime = (calcDeltaTime host.now s.lastUpdateTime).2 ∧
      (update host s).lastUpdateTime = host.now ∧
      (update host s).canvasWidth = host.innerWidth ∧
      (update host s).canvasHeight = host.innerHeight ∧
      (update host s).framesRequested = s.framesRequested + 1 ∧
      (update host s).pointers = s.pointers ∧
      (update host s).splatStack = s.splatStack ∧
      (update host s).programsRun = s.programsRun := by
  simp only [update, resizeCanvas, updatePointerDownData, updatePointerMoveData,
    requestAnimationFrame, calcDeltaTime]
  by_cases h : s.canvasWidth ≠ host.innerWidth ∨ s.canvasHeight ≠ host.innerHeight
  · simp [h]
  · have h1 : s.canvasWidth = host.innerWidth := by
      by_contra hc; exact h (Or.inl hc)
    have h2 : s.canvasHeight = host.innerHeight := by
      by_contra hc; exact h (Or.inr hc)
    simp [h1, h2]

theorem foldl_update_programsRun {σ : Type} (hosts : List Host) :
    ∀ s : State σ, (hosts.foldl (fun s h => update h s) s).programsRun = s.programsRun ∧
      (hosts.foldl (fun s h => update h s) s).splatStack = s.splatStack ∧
      (hosts.foldl (fun s h => update h s) s).framesRequested
        = s.framesRequested + hosts.length := by
  induction hosts with
  | nil => intro s; simp
  | cons h rest ih =>
    intro s
    have e := update_eq h s
    have r := ih (update h s)
    simp only [List.foldl_cons, List.length_cons]
    rw [r.1, r.2.1, r.2.2, e.2.2.2.2.2.2.2, e.2.2.2.2.2.2.1, e.2.2.2.2.1]
    exact ⟨rfl, rfl, by omega⟩

/-- C8: after `startFluidSimulation` and any number of frames, whatever the host clock
and window size at each, `update` has requested one frame per call and no fragment
program has been run: the curl, vorticity, divergence, pressure, gradient-subtraction
and advection stages were applied zero times, not once per frame. -/
theorem update_runs_no_stage (host : Host) (hosts : List Host) :
    (frames Nat host hosts).framesRequested = hosts.length ∧
      (frames Nat host hosts).programsRun = [] ∧
      ∀ stage ∈ [Program.curl, Program.vorticity, Program.divergence, Program.pressure,
          Program.gradientSubtract, Program.advection],
        (frames Nat host hosts).programsRun.count stage = 0 := by
  have h := foldl_update_programsRun hosts (initialState Nat host)
  have hp : (frames Nat host hosts).programsRun = [] := by
    simpa [frames, initialState] using h.1
  refine ⟨by simpa [frames, initialState] using h.2.2, hp, ?_⟩
  intro stage _
  rw [hp]
  rfl

/-- C9: on a pointer whose `down` flag is set, a `mousemove` to the position the pointer
already has, and likewise a `touchmove`, ends with `moved` true though the pointer was
not displaced (`dx = dy = 0`). -/
theorem move_sets_moved_without_displacement :
    (∃ p, mousemove 5 5 [heldPointer] = Outcome.completed [p] ∧
        p.moved = true ∧ p.down = true ∧ p.dx = JsNum.num 0 ∧ p.dy = JsNum.num 0 ∧
        p.displaced = false) ∧
      ∃ p, touchmove [⟨5, 5⟩] [heldPointer] = Outcome.completed [p] ∧
        p.moved = true ∧ p.down = true ∧ p.dx = JsNum.num 0 ∧ p.dy = JsNum.num 0 ∧
        p.displaced = false := by
  constructor
  · refine ⟨movePointer 5 5 5 heldPointer, ?_, ?_⟩
    · simp [mousemove]
    · simp [movePointer, heldPointer, Pointer.new, JsNum.sub, JsNum.mul, Pointer.displaced]
  · refine ⟨movePointer 8 5 5 heldPointer, ?_, ?_⟩
    · simp [touchmove, touchmoveLoop]
    · simp [movePointer, heldPointer, Pointer.new, JsNum.sub, JsNum.mul, Pointer.displaced]

/-- C10: in every state reached from the initial pointer list, a `touchmove` with two or
more target touches reads `pointers[1]`, which is missing, and throws. -/
theorem touchmove_second_touch_throws (events : List PointerEvent) (t₀ t₁ : Touch)
    (rest : List Touch) :
    (deliver events initialPointers).length = 1 ∧
      ∃ ps, touchmove (t₀ :: t₁ :: rest) (deliver events initialPointers) = Outcome.threw ps := by
  have hlen : (deliver events initialPointers).length = 1 := by
    rw [deliver_length]; rfl
  refine ⟨hlen, ?_⟩
  obtain ⟨p, hps⟩ := List.length_eq_one.mp hlen
  rw [hps]
  exact ⟨[movePointer 8 t₀.clientX t₀.clientY p], by simp [touchmove, touchmoveLoop]⟩

/-! ## Pressure projection (C4) -/

theorem coord_centre {α : Type} [LinearOrderedField α] (n : Nat) (hn : 0 < n) (i : Int) :
    (((2 * (i : α) + 1) / (n : α) - 1) * (1 / 2) + 1 / 2) * (n : α) = (i : α) + 1 / 2 := by
  have h : (n : α) ≠ 0 := by exact_mod_cast hn.ne'
  field_simp
  ring

theorem coord_minus {α : Type} [LinearOrderedField α] (n : Nat) (hn : 0 < n) (i : Int) :
    (((2 * (i : α) + 1) / (n : α) - 1) * (1 / 2) + 1 / 2 - 1 / (n : α)) * (n : α)
      = (i : α) - 1 / 2 := by
  have h : (n : α) ≠ 0 := by exact_mod_cast hn.ne'
  field_simp
  ring

theorem coord_plus {α : Type} [LinearOrderedField α] (n : Nat) (hn : 0 < n) (i : Int) :
    (((2 * (i : α) + 1) / (n : α) - 1) * (1 / 2) + 1 / 2 + 1 / (n : α)) * (n : α)
      = (i : α) + 3 / 2 := by
  have h : (n : α) ≠ 0 := by exact_mod_cast hn.ne'
  field_simp
  ring

section GridLemmas

variable {α : Type} [LinearOrderedField α] [FloorRing α]

theorem floor_add_half (i : Int) : ⌊(i : α) + 1 / 2⌋ = i := by
  rw [Int.floor_eq_iff]
  constructor
  · linarith [show (0 : α) < 1 / 2 by norm_num]
  · linarith [show (1 / 2 : α) < 1 by norm_num]

theorem floor_sub_half (i : Int) : ⌊(i : α) - 1 / 2⌋ = i - 1 := by
  rw [Int.floor_eq_iff]
  push_cast
  constructor
  · linarith [show (1 / 2 : α) < 1 by norm_num]
  · linarith [show (0 : α) < 1 / 2 by norm_num]

theorem floor_add_three_halves (i : Int) : ⌊(i : α) + 3 / 2⌋ = i + 1 := by
  rw [Int.floor_eq_iff]
  push_cast
  constructor
  · linarith [show (1 : α) < 3 / 2 by norm_num]
  · linarith [show (3 / 2 : α) < 2 by norm_num]

variable (addr : Nat → Int → Int) (W H : Nat) (tex : Int → Int → Vec4 α)

theorem texture2D_vUv (hW : 0 < W) (hH : 0 < H) (i j : Int) :
    texture2D addr W H tex (baseVertexShader (texelSize W H) (texelCentre W H i j)).vUv
      = cell addr W H tex i j := by
  simp only [texture2D, baseVertexShader, texelCentre, cell, coord_centre W hW, coord_centre H hH,
    floor_add_half]

theorem texture2D_vL (hW : 0 < W) (hH : 0 < H) (i j : Int) :
    texture2D addr W H tex (baseVertexShader (texelSize W H) (texelCentre W H i j)).vL
      = cell addr W H tex (i - 1) j := by
  simp only [texture2D, baseVertexShader, texelCentre, texelSize, Vec2.sub, cell, sub_zero,
    coord_centre H hH, coord_minus W hW, floor_add_half, floor_sub_half]

theorem texture2D_vR (hW : 0 < W) (hH : 0 < H) (i j : Int) :
    texture2D addr W H tex (baseVertexShader (texelSize W H) (texelCentre W H i j)).vR
      = cell addr W H tex (i + 1) j := by
  simp only [texture2D, baseVertexShader, texelCentre, texelSize, Vec2.add, cell, add_zero,
    coord_centre H hH, coord_plus W hW, floor_add_half, floor_add_three_halves]

theorem texture2D_vT (hW : 0 < W) (hH : 0 < H) (i j : Int) :
    texture2D addr W H tex (baseVertexShader (texelSize W H) (texelCentre W H i j)).vT
      = cell addr W H tex i (j + 1) := by
  simp only [texture2D, baseVertexShader, texelCentre, texelSize, Vec2.add, cell, add_zero,
    coord_centre W hW, coord_plus H hH, floor_add_half, floor_add_three_halves]

theorem texture2D_vB (hW : 0 < W) (hH : 0 < H) (i j : Int) :
    texture2D addr W H tex (baseVertexShader (texelSize W H) (texelCentre W H i j)).vB
      = cell addr W H tex i (j - 1) := by
  simp only [texture2D, baseVertexShader, texelCentre, texelSize, Vec2.sub, cell, sub_zero,
    coord_centre W hW, coord_minus H hH, floor_add_half, floor_sub_half]

theorem divergencePass_apply (hW : 0 < W) (hH : 0 < H) (i j : Int) :
    divergencePass addr W H tex i j =
      ⟨1 / 2 * ((cell addr W H tex (i + 1) j).x - (cell addr W H tex (i - 1) j).x
        + (cell addr W H tex i (j + 1)).y - (cell addr W H tex i (j - 1)).y), 0, 0, 1⟩ := by
  simp only [divergencePass, renderPass, divergenceShader, texture2D_vL addr W H tex hW hH,
    texture2D_vR addr W H tex hW hH, texture2D_vT addr W H tex hW hH,
    texture2D_vB addr W H tex hW hH]

theorem pressurePass_apply (div : Int → Int → Vec4 α) (hW : 0 < W) (hH : 0 < H) (i j : Int) :
    pressurePass addr W H div tex i j =
      ⟨((cell addr W H tex (i - 1) j).x + (cell addr W H tex (i + 1) j).x
        + (cell addr W H tex i (j - 1)).x + (cell addr W H tex i (j + 1)).x
        - (cell addr W H div i j).x) * (1 / 4), 0, 0, 1⟩ := by
  simp only [pressurePass, renderPass, pressureShader, texture2D_vL addr W H _ hW hH,
    texture2D_vR addr W H _ hW hH, texture2D_vT addr W H _ hW hH,
    texture2D_vB addr W H _ hW hH, texture2D_vUv addr W H _ hW hH]

theorem gradientSubtractPass_apply (vel : Int → Int → Vec4 α) (hW : 0 < W) (hH : 0 < H)
    (i j : Int) :
    gradientSubtractPass addr W H tex vel i j =
      ⟨(cell addr W H vel i j).x
          - ((cell addr W H tex (i + 1) j).x - (cell addr W H tex (i - 1) j).x),
        (cell addr W H vel i j).y
          - ((cell addr W H tex i (j + 1)).x - (cell addr W H tex i (j - 1)).x), 0, 1⟩ := by
  simp only [gradientSubtractPass, renderPass, gradientSubtractShader, Vec2.sub, Vec4.xy,
    texture2D_vL addr W H _ hW hH,
    texture2D_vR addr W H _ hW hH, texture2D_vT addr W H _ hW hH,
    texture2D_vB addr W H _ hW hH, texture2D_vUv addr W H _ hW hH]

end GridLemmas

theorem clampToEdge_four (i : Int) : clampToEdge 4 i = max 0 (min 3 i) := by
  simp [clampToEdge]

theorem clampToEdge_one (i : Int) : clampToEdge 1 i = 0 := by
  simp only [clampToEdge]
  omega

theorem zigzag_values {α : Type} [LinearOrderedField α] :
    (zigzag 0 0 : Vec4 α) = ⟨0, 0, 0, 0⟩ ∧ (zigzag 1 0 : Vec4 α) = ⟨1, 0, 0, 0⟩ ∧
      (zigzag 2 0 : Vec4 α) = ⟨0, 0, 0, 0⟩ ∧ (zigzag 3 0 : Vec4 α) = ⟨1, 0, 0, 0⟩ := by
  refine ⟨?_, ?_, ?_, ?_⟩ <;> simp [zigzag, textureOfRows]


theorem sumSquares_before :
    sumSquares 4 1 (divergencePass clampToEdge 4 1 (zigzag : Int → Int → Vec4 ℝ)) = 1 / 2 := by
  simp only [sumSquares, Finset.sum_range_succ, Finset.sum_range_zero, zero_add,
    divergencePass_apply clampToEdge 4 1 _ (by norm_num) (by norm_num), cell,
    clampToEdge_four, clampToEdge_one]
  norm_num [(zigzag_values (α := ℝ)).1, (zigzag_values (α := ℝ)).2.1,
    (zigzag_values (α := ℝ)).2.2.1, (zigzag_values (α := ℝ)).2.2.2]

theorem sumSquares_after :
    sumSquares 4 1 (divergencePass clampToEdge 4 1 (project clampToEdge 4 1 1 (zigzag : Int → Int → Vec4 ℝ))) = 17 / 32 := by
  simp only [sumSquares, Finset.sum_range_succ, Finset.sum_range_zero, zero_add, project, jacobi,
    Function.iterate_succ, Function.iterate_zero, Function.comp, id,
    divergencePass_apply clampToEdge 4 1 _ (by norm_num) (by norm_num),
    gradientSubtractPass_apply clampToEdge 4 1 _ _ (by norm_num) (by norm_num),
    pressurePass_apply clampToEdge 4 1 _ _ (by norm_num) (by norm_num), cell, zeroTexture]
  simp only [clampToEdge_four, clampToEdge_one]
  norm_num [(zigzag_values (α := ℝ)).1, (zigzag_values (α := ℝ)).2.1,
    (zigzag_values (α := ℝ)).2.2.1, (zigzag_values (α := ℝ)).2.2.2]

/-- C4 (counterexample): on a four by one grid with clamp-to-edge addressing, for the
velocity field with x components `0, 1, 0, 1` (whose divergence is not zero), the
projection with one Jacobi iteration from a zero pressure field makes the root-mean-square
divergence larger, not smaller. -/
theorem project_clamp_rms_grows :
    (divergencePass clampToEdge 4 1 (zigzag : Int → Int → Vec4 ℝ) 0 0).x ≠ 0 ∧
      rms Real.sqrt 4 1 (divergencePass clampToEdge 4 1 (zigzag : Int → Int → Vec4 ℝ))
        < rms Real.sqrt 4 1
            (divergencePass clampToEdge 4 1
              (project clampToEdge 4 1 1 (zigzag : Int → Int → Vec4 ℝ))) := by
  constructor
  · simp only [divergencePass_apply clampToEdge 4 1 _ (by norm_num) (by norm_num), cell,
      clampToEdge_four, clampToEdge_one]
    norm_num [(zigzag_values (α := ℝ)).1, (zigzag_values (α := ℝ)).2.1]
  · simp only [rms, sumSquares_before, sumSquares_after]
    apply Real.sqrt_lt_sqrt
    · norm_num
    · norm_num

/-! ### Fourier analysis on a finite abelian group -/

open scoped ComplexConjugate

section Fourier

variable {G : Type} [AddCommGroup G] [Fintype G]

theorem fourierSum_shift (f : G → ℂ) (a : G) (ψ : AddChar G ℂ) :
    fourierSum (fun x => f (x + a)) ψ = ψ a * fourierSum f ψ := by
  simp only [fourierSum]
  rw [Finset.mul_sum]
  refine Fintype.sum_equiv (Equiv.addRight a) _ _ (fun x => ?_)
  simp only [Equiv.coe_addRight]
  have h : ψ a * ψ (-(x + a)) = ψ (-x) := by
    rw [← AddChar.map_add_eq_mul]
    congr 1
    abel
  rw [mul_left_comm, h]

theorem fourierSum_shift_neg (f : G → ℂ) (a : G) (ψ : AddChar G ℂ) :
    fourierSum (fun x => f (x - a)) ψ = ψ (-a) * fourierSum f ψ := by
  have h := fourierSum_shift f (-a) ψ
  simpa only [sub_eq_add_neg] using h

theorem fourierSum_add (f g : G → ℂ) (ψ : G → ℂ) :
    fourierSum (fun x => f x + g x) ψ = fourierSum f ψ + fourierSum g ψ := by
  simp only [fourierSum, add_mul, Finset.sum_add_distrib]

theorem fourierSum_sub (f g : G → ℂ) (ψ : G → ℂ) :
    fourierSum (fun x => f x - g x) ψ = fourierSum f ψ - fourierSum g ψ := by
  simp only [fourierSum, sub_mul, Finset.sum_sub_distrib]

theorem fourierSum_const_mul (c : ℂ) (f : G → ℂ) (ψ : G → ℂ) :
    fourierSum (fun x => c * f x) ψ = c * fourierSum f ψ := by
  simp only [fourierSum, Finset.mul_sum, mul_assoc]

theorem fourierSum_zero (ψ : G → ℂ) : fourierSum (fun _ : G => (0 : ℂ)) ψ = 0 := by
  simp [fourierSum]

theorem conj_fourierSum (f : G → ℝ) (ψ : AddChar G ℂ) :
    conj (fourierSum (fun x => (f x : ℂ)) ψ) = ∑ x, (f x : ℂ) * ψ x := by
  simp only [fourierSum]
  rw [map_sum]
  refine Finset.sum_congr rfl (fun x _ => ?_)
  rw [map_mul, Complex.conj_ofReal, AddChar.map_neg_eq_conj, Complex.conj_conj]

theorem parseval [DecidableEq G] (f : G → ℝ) :
    ∑ ψ : AddChar G ℂ, Complex.normSq (fourierSum (fun x => (f x : ℂ)) ψ)
      = (Fintype.card G : ℝ) * ∑ x, f x ^ 2 := by
  apply Complex.ofReal_injective
  push_cast
  have h1 : ∀ ψ : AddChar G ℂ, ((Complex.normSq (fourierSum (fun x => (f x : ℂ)) ψ) : ℝ) : ℂ)
      = ∑ x, ∑ y, (f x : ℂ) * (f y : ℂ) * ψ (y - x) := by
    intro ψ
    rw [← Complex.mul_conj, conj_fourierSum]
    simp only [fourierSum]
    rw [Finset.sum_mul_sum]
    refine Finset.sum_congr rfl (fun x _ => Finset.sum_congr rfl (fun y _ => ?_))
    rw [sub_eq_add_neg, AddChar.map_add_eq_mul]
    ring
  simp only [h1]
  rw [Finset.sum_comm]
  have h2 : ∀ x : G, ∑ ψ : AddChar G ℂ, ∑ y, (f x : ℂ) * (f y : ℂ) * ψ (y - x)
      = (Fintype.card G : ℂ) * (f x : ℂ) ^ 2 := by
    intro x
    rw [Finset.sum_comm]
    have h3 : ∀ y : G, ∑ ψ : AddChar G ℂ, (f x : ℂ) * (f y : ℂ) * ψ (y - x)
        = if y = x then (f x : ℂ) * (f y : ℂ) * (Fintype.card G : ℂ) else 0 := by
      intro y
      rw [← Finset.mul_sum, AddChar.sum_apply_eq_ite]
      by_cases hyx : y = x
      · simp [hyx]
      · simp [hyx, sub_eq_zero]
    simp only [h3, Finset.sum_ite_eq', Finset.mem_univ, if_true]
    ring
  simp only [h2, ← Finset.mul_sum]

end Fourier

section Multiplier

theorem multiplier_core (a j S P : ℝ) (ha0 : 0 < a) (ha1 : a ≤ 1) (hj0 : -1 < j) (hj1 : j < 1)
    (hgeo : S * (1 - j) = 1 - P) (hP : |P| ≤ |j|) (hPn : 0 ≤ j → 0 ≤ P)
    (ha2 : a < 2 * (1 - j)) :
    (1 - a * S) ^ 2 < 1 := by
  have h1j : 0 < 1 - j := by linarith
  have habs : |j| < 1 := abs_lt.2 ⟨hj0, hj1⟩
  have hP1 : P < 1 := lt_of_le_of_lt (le_abs_self _) (lt_of_le_of_lt hP habs)
  have hS_pos : 0 < S := by
    have h : 0 < S * (1 - j) := by rw [hgeo]; linarith
    exact pos_of_mul_pos_left h h1j.le
  have hkey : a * (1 - P) < 2 * (1 - j) := by
    by_cases hj : 0 ≤ j
    · have hP0 : 0 ≤ P := hPn hj
      have : a * (1 - P) ≤ a := by nlinarith
      linarith
    · have hjn : j < 0 := not_le.1 hj
      have h3 : -P ≤ -j := by
        have h4 : |j| = -j := abs_of_neg hjn
        linarith [neg_le_abs P]
      have h5 : a * (1 - P) ≤ 1 - P := by nlinarith
      linarith
  have haS : a * S * (1 - j) < 2 * (1 - j) := by
    have : a * S * (1 - j) = a * (1 - P) := by rw [mul_assoc, hgeo]
    linarith
  have haS2 : a * S < 2 := lt_of_mul_lt_mul_right haS h1j.le
  have haS0 : 0 < a * S := mul_pos ha0 hS_pos
  nlinarith

/-- The factor by which one Fourier mode of the divergence is multiplied by a projection
with `N` Jacobi iterations has absolute value below one. -/
theorem multiplier_sq_lt_one (x y : ℝ) (hx : x ^ 2 ≤ 1) (hy : y ^ 2 ≤ 1)
    (hxy : x ^ 2 < 1 ∨ y ^ 2 < 1) (N : ℕ) (hN : 1 ≤ N) :
    (1 - (1 - (x ^ 2 + y ^ 2) / 2) * ∑ n in Finset.range N, ((x + y) / 2) ^ n) ^ 2 < 1 := by
  have hx1 : -1 ≤ x ∧ x ≤ 1 := abs_le.1 (by
    rw [← abs_one, ← sq_le_sq]; simpa using hx)
  have hy1 : -1 ≤ y ∧ y ≤ 1 := abs_le.1 (by
    rw [← abs_one, ← sq_le_sq]; simpa using hy)
  have hj_lt : (x + y) / 2 < 1 := by
    rcases hxy with h | h
    · have : x < 1 := by nlinarith
      linarith [hy1.2]
    · have : y < 1 := by nlinarith
      linarith [hx1.2]
  have hj_gt : -1 < (x + y) / 2 := by
    rcases hxy with h | h
    · have : -1 < x := by nlinarith
      linarith [hy1.1]
    · have : -1 < y := by nlinarith
      linarith [hx1.1]
  have ha_pos : 0 < 1 - (x ^ 2 + y ^ 2) / 2 := by rcases hxy with h | h <;> linarith
  have ha_le : 1 - (x ^ 2 + y ^ 2) / 2 ≤ 1 := by nlinarith [sq_nonneg x, sq_nonneg y]
  have habs : |(x + y) / 2| < 1 := abs_lt.2 ⟨hj_gt, hj_lt⟩
  have hgeo : (∑ n in Finset.range N, ((x + y) / 2) ^ n) * (1 - (x + y) / 2)
      = 1 - ((x + y) / 2) ^ N := by
    have := geom_sum_mul ((x + y) / 2) N
    linarith
  have hpowabs : |((x + y) / 2) ^ N| ≤ |(x + y) / 2| := by
    rw [abs_pow]
    calc |(x + y) / 2| ^ N ≤ |(x + y) / 2| ^ 1 :=
          pow_le_pow_of_le_one (abs_nonneg _) habs.le hN
      _ = |(x + y) / 2| := pow_one _
  have h2 : 1 - (x ^ 2 + y ^ 2) / 2 < 2 * (1 - (x + y) / 2) := by
    have hsq : 0 < (1 - x) ^ 2 + (1 - y) ^ 2 := by
      rcases hxy with h | h
      · have h1 : x < 1 := by nlinarith
        have h2 : 0 < (1 - x) ^ 2 := pow_pos (by linarith) 2
        have h3 : 0 ≤ (1 - y) ^ 2 := sq_nonneg _
        linarith
      · have h1 : y < 1 := by nlinarith
        have h2 : 0 < (1 - y) ^ 2 := pow_pos (by linarith) 2
        have h3 : 0 ≤ (1 - x) ^ 2 := sq_nonneg _
        linarith
    nlinarith
  exact multiplier_core _ _ _ _ ha_pos ha_le hj_gt hj_lt hgeo hpowabs
    (fun h => pow_nonneg h N) h2

end Multiplier

theorem char_mul_neg {G : Type} [AddCommGroup G] (ψ : AddChar G ℂ) (e : G) :
    ψ e * ψ (-e) = 1 := by
  rw [← AddChar.map_add_eq_mul, add_neg_cancel, AddChar.map_zero_eq_one]

section Characters

variable {G : Type} [AddCommGroup G] [Fintype G]

theorem char_add_neg (ψ : AddChar G ℂ) (e : G) : ψ e + ψ (-e) = ((2 * (ψ e).re : ℝ) : ℂ) := by
  rw [AddChar.map_neg_eq_conj, Complex.add_conj]

theorem char_re_sq_le (ψ : AddChar G ℂ) (e : G) : (ψ e).re ^ 2 ≤ 1 := by
  have h := char_mul_neg ψ e
  rw [AddChar.map_neg_eq_conj, Complex.mul_conj] at h
  have h1 : Complex.normSq (ψ e) = 1 := by exact_mod_cast h
  rw [Complex.normSq_apply] at h1
  nlinarith [mul_self_nonneg (ψ e).im]

theorem char_sub_neg_eq_zero (ψ : AddChar G ℂ) (e : G) (h : (ψ e).re ^ 2 = 1) :
    ψ e - ψ (-e) = 0 := by
  have h0 := char_mul_neg ψ e
  rw [AddChar.map_neg_eq_conj, Complex.mul_conj] at h0
  have h1 : Complex.normSq (ψ e) = 1 := by exact_mod_cast h0
  rw [Complex.normSq_apply] at h1
  have him : (ψ e).im = 0 := by
    have : (ψ e).im * (ψ e).im = 0 := by nlinarith
    exact mul_self_eq_zero.1 this
  rw [AddChar.map_neg_eq_conj]
  apply Complex.ext
  · simp
  · simp [him]

theorem char_sq_add_neg_sq (ψ : AddChar G ℂ) (e : G) :
    ψ e * ψ e + ψ (-e) * ψ (-e) = ((4 * (ψ e).re ^ 2 - 2 : ℝ) : ℂ) := by
  have h1 := char_mul_neg ψ e
  have h2 := char_add_neg ψ e
  have h3 : ψ e * ψ e + ψ (-e) * ψ (-e) = (ψ e + ψ (-e)) ^ 2 - 2 * (ψ e * ψ (-e)) := by ring
  rw [h3, h1, h2]
  push_cast
  ring

end Characters

section Abstract

variable {G : Type} [AddCommGroup G] [Fintype G]

variable (e₁ e₂ : G) (cx cy d d' : G → ℝ) (p : ℕ → G → ℝ) (N : ℕ)

theorem fourier_divergence
    (hd : ∀ x, d x = 1 / 2 * (cx (x + e₁) - cx (x - e₁) + cy (x + e₂) - cy (x - e₂)))
    (ψ : AddChar G ℂ) :
    fourierSum (fun x => (d x : ℂ)) ψ =
      1 / 2 * ((ψ e₁ - ψ (-e₁)) * fourierSum (fun x => (cx x : ℂ)) ψ
        + (ψ e₂ - ψ (-e₂)) * fourierSum (fun x => (cy x : ℂ)) ψ) := by
  have e : (fun x => (d x : ℂ)) = fun x => (1 / 2 : ℂ) *
      (((cx (x + e₁) : ℂ) - (cx (x - e₁) : ℂ)) + ((cy (x + e₂) : ℂ) - (cy (x - e₂) : ℂ))) := by
    funext x
    rw [hd x]
    push_cast
    ring
  have s1 : fourierSum (fun x => (cx (x + e₁) : ℂ)) ψ = ψ e₁ * fourierSum (fun x => (cx x : ℂ)) ψ :=
    fourierSum_shift (fun x => (cx x : ℂ)) e₁ ψ
  have s2 : fourierSum (fun x => (cx (x - e₁) : ℂ)) ψ
      = ψ (-e₁) * fourierSum (fun x => (cx x : ℂ)) ψ :=
    fourierSum_shift_neg (fun x => (cx x : ℂ)) e₁ ψ
  have s3 : fourierSum (fun x => (cy (x + e₂) : ℂ)) ψ = ψ e₂ * fourierSum (fun x => (cy x : ℂ)) ψ :=
    fourierSum_shift (fun x => (cy x : ℂ)) e₂ ψ
  have s4 : fourierSum (fun x => (cy (x - e₂) : ℂ)) ψ
      = ψ (-e₂) * fourierSum (fun x => (cy x : ℂ)) ψ :=
    fourierSum_shift_neg (fun x => (cy x : ℂ)) e₂ ψ
  rw [e, fourierSum_const_mul, fourierSum_add, fourierSum_sub, fourierSum_sub, s1, s2, s3, s4]
  ring

theorem fourier_jacobi_succ
    (hps : ∀ n x, p (n + 1) x =
      (p n (x - e₁) + p n (x + e₁) + p n (x - e₂) + p n (x + e₂) - d x) * (1 / 4))
    (n : ℕ) (ψ : AddChar G ℂ) :
    fourierSum (fun x => (p (n + 1) x : ℂ)) ψ =
      1 / 4 * ((ψ (-e₁) + ψ e₁ + ψ (-e₂) + ψ e₂) * fourierSum (fun x => (p n x : ℂ)) ψ
        - fourierSum (fun x => (d x : ℂ)) ψ) := by
  have e : (fun x => (p (n + 1) x : ℂ)) = fun x => (1 / 4 : ℂ) *
      ((((p n (x - e₁) : ℂ) + (p n (x + e₁) : ℂ)) + ((p n (x - e₂) : ℂ) + (p n (x + e₂) : ℂ)))
        - (d x : ℂ)) := by
    funext x
    rw [hps n x]
    push_cast
    ring
  have s1 : fourierSum (fun x => (p n (x + e₁) : ℂ)) ψ
      = ψ e₁ * fourierSum (fun x => (p n x : ℂ)) ψ :=
    fourierSum_shift (fun x => (p n x : ℂ)) e₁ ψ
  have s2 : fourierSum (fun x => (p n (x - e₁) : ℂ)) ψ
      = ψ (-e₁) * fourierSum (fun x => (p n x : ℂ)) ψ :=
    fourierSum_shift_neg (fun x => (p n x : ℂ)) e₁ ψ
  have s3 : fourierSum (fun x => (p n (x + e₂) : ℂ)) ψ
      = ψ e₂ * fourierSum (fun x => (p n x : ℂ)) ψ :=
    fourierSum_shift (fun x => (p n x : ℂ)) e₂ ψ
  have s4 : fourierSum (fun x => (p n (x - e₂) : ℂ)) ψ
      = ψ (-e₂) * fourierSum (fun x => (p n x : ℂ)) ψ :=
    fourierSum_shift_neg (fun x => (p n x : ℂ)) e₂ ψ
  rw [e, fourierSum_const_mul, fourierSum_sub, fourierSum_add, fourierSum_add, fourierSum_add,
    s1, s2, s3, s4]
  ring

theorem fourier_jacobi
    (hp0 : ∀ x, p 0 x = 0)
    (hps : ∀ n x, p (n + 1) x =
      (p n (x - e₁) + p n (x + e₁) + p n (x - e₂) + p n (x + e₂) - d x) * (1 / 4))
    (n : ℕ) (ψ : AddChar G ℂ) :
    fourierSum (fun x => (p n x : ℂ)) ψ =
      -(((∑ k in Finset.range n, (((ψ e₁).re + (ψ e₂).re) / 2) ^ k : ℝ) : ℂ) / 4)
        * fourierSum (fun x => (d x : ℂ)) ψ := by
  induction n with
  | zero =>
    have e : (fun x => (p 0 x : ℂ)) = fun _ => (0 : ℂ) := by
      funext x
      rw [hp0 x]
      simp
    rw [e, fourierSum_zero]
    simp
  | succ n ih =>
    rw [fourier_jacobi_succ e₁ e₂ d p hps n ψ, ih, geom_sum_succ]
    have h1 := char_add_neg ψ e₁
    have h2 := char_add_neg ψ e₂
    have h3 : ψ (-e₁) + ψ e₁ + ψ (-e₂) + ψ e₂
        = ((4 * (((ψ e₁).re + (ψ e₂).re) / 2) : ℝ) : ℂ) := by
      have : ψ (-e₁) + ψ e₁ + ψ (-e₂) + ψ e₂ = (ψ e₁ + ψ (-e₁)) + (ψ e₂ + ψ (-e₂)) := by ring
      rw [this, h1, h2]
      push_cast
      ring
    rw [h3]
    push_cast
    ring

end Abstract

section Projected

variable {G : Type} [AddCommGroup G] [Fintype G]

variable (e₁ e₂ : G) (cx cy d d' : G → ℝ) (p : ℕ → G → ℝ) (N : ℕ)

theorem fourier_projected
    (hd' : ∀ x, d' x = d x - 1 / 2 * (p N (x + (e₁ + e₁)) + p N (x - (e₁ + e₁))
      + p N (x + (e₂ + e₂)) + p N (x - (e₂ + e₂)) - 4 * p N x))
    (ψ : AddChar G ℂ) :
    fourierSum (fun x => (d' x : ℂ)) ψ =
      fourierSum (fun x => (d x : ℂ)) ψ
        - 1 / 2 * ((ψ e₁ * ψ e₁ + ψ (-e₁) * ψ (-e₁) + ψ e₂ * ψ e₂ + ψ (-e₂) * ψ (-e₂) - 4)
          * fourierSum (fun x => (p N x : ℂ)) ψ) := by
  have e : (fun x => (d' x : ℂ)) = fun x => (d x : ℂ) - (1 / 2 : ℂ) *
      ((((p N (x + (e₁ + e₁)) : ℂ) + (p N (x - (e₁ + e₁)) : ℂ))
        + ((p N (x + (e₂ + e₂)) : ℂ) + (p N (x - (e₂ + e₂)) : ℂ))) - (4 : ℂ) * (p N x : ℂ)) := by
    funext x
    rw [hd' x]
    push_cast
    ring
  have s1 : fourierSum (fun x => (p N (x + (e₁ + e₁)) : ℂ)) ψ
      = ψ (e₁ + e₁) * fourierSum (fun x => (p N x : ℂ)) ψ :=
    fourierSum_shift (fun x => (p N x : ℂ)) (e₁ + e₁) ψ
  have s2 : fourierSum (fun x => (p N (x - (e₁ + e₁)) : ℂ)) ψ
      = ψ (-(e₁ + e₁)) * fourierSum (fun x => (p N x : ℂ)) ψ :=
    fourierSum_shift_neg (fun x => (p N x : ℂ)) (e₁ + e₁) ψ
  have s3 : fourierSum (fun x => (p N (x + (e₂ + e₂)) : ℂ)) ψ
      = ψ (e₂ + e₂) * fourierSum (fun x => (p N x : ℂ)) ψ :=
    fourierSum_shift (fun x => (p N x : ℂ)) (e₂ + e₂) ψ
  have s4 : fourierSum (fun x => (p N (x - (e₂ + e₂)) : ℂ)) ψ
      = ψ (-(e₂ + e₂)) * fourierSum (fun x => (p N x : ℂ)) ψ :=
    fourierSum_shift_neg (fun x => (p N x : ℂ)) (e₂ + e₂) ψ
  rw [e, fourierSum_sub, fourierSum_const_mul, fourierSum_sub, fourierSum_add, fourierSum_add,
    fourierSum_add, fourierSum_const_mul, s1, s2, s3, s4, neg_add, neg_add,
    AddChar.map_add_eq_mul, AddChar.map_add_eq_mul, AddChar.map_add_eq_mul,
    AddChar.map_add_eq_mul]
  ring

/-- Each Fourier coefficient of the divergence after the projection is a real multiple
of the coefficient before. -/
theorem fourier_projected_eq
    (hp0 : ∀ x, p 0 x = 0)
    (hps : ∀ n x, p (n + 1) x =
      (p n (x - e₁) + p n (x + e₁) + p n (x - e₂) + p n (x + e₂) - d x) * (1 / 4))
    (hd' : ∀ x, d' x = d x - 1 / 2 * (p N (x + (e₁ + e₁)) + p N (x - (e₁ + e₁))
      + p N (x + (e₂ + e₂)) + p N (x - (e₂ + e₂)) - 4 * p N x))
    (ψ : AddChar G ℂ) :
    fourierSum (fun x => (d' x : ℂ)) ψ =
      ((1 - (1 - ((ψ e₁).re ^ 2 + (ψ e₂).re ^ 2) / 2)
        * ∑ k in Finset.range N, (((ψ e₁).re + (ψ e₂).re) / 2) ^ k : ℝ) : ℂ)
        * fourierSum (fun x => (d x : ℂ)) ψ := by
  rw [fourier_projected e₁ e₂ d d' p N hd' ψ, fourier_jacobi e₁ e₂ d p hp0 hps N ψ]
  have h1 := char_sq_add_neg_sq ψ e₁
  have h2 := char_sq_add_neg_sq ψ e₂
  have h3 : ψ e₁ * ψ e₁ + ψ (-e₁) * ψ (-e₁) + ψ e₂ * ψ e₂ + ψ (-e₂) * ψ (-e₂) - 4
      = ((4 * (ψ e₁).re ^ 2 - 2 : ℝ) : ℂ) + ((4 * (ψ e₂).re ^ 2 - 2 : ℝ) : ℂ) - 4 := by
    rw [← h1, ← h2]
    ring
  rw [h3]
  push_cast
  ring

theorem normSq_projected_le
    (hd : ∀ x, d x = 1 / 2 * (cx (x + e₁) - cx (x - e₁) + cy (x + e₂) - cy (x - e₂)))
    (hp0 : ∀ x, p 0 x = 0)
    (hps : ∀ n x, p (n + 1) x =
      (p n (x - e₁) + p n (x + e₁) + p n (x - e₂) + p n (x + e₂) - d x) * (1 / 4))
    (hd' : ∀ x, d' x = d x - 1 / 2 * (p N (x + (e₁ + e₁)) + p N (x - (e₁ + e₁))
      + p N (x + (e₂ + e₂)) + p N (x - (e₂ + e₂)) - 4 * p N x))
    (hN : 1 ≤ N) (ψ : AddChar G ℂ) :
    Complex.normSq (fourierSum (fun x => (d' x : ℂ)) ψ)
        ≤ Complex.normSq (fourierSum (fun x => (d x : ℂ)) ψ) ∧
      (fourierSum (fun x => (d x : ℂ)) ψ ≠ 0 →
        Complex.normSq (fourierSum (fun x => (d' x : ℂ)) ψ)
          < Complex.normSq (fourierSum (fun x => (d x : ℂ)) ψ)) := by
  rw [fourier_projected_eq e₁ e₂ d d' p N hp0 hps hd' ψ, Complex.normSq_mul,
    Complex.normSq_ofReal]
  by_cases h0 : fourierSum (fun x => (d x : ℂ)) ψ = 0
  · rw [h0]
    simp
  · have hpos : 0 < Complex.normSq (fourierSum (fun x => (d x : ℂ)) ψ) :=
      Complex.normSq_pos.2 h0
    have hx := char_re_sq_le ψ e₁
    have hy := char_re_sq_le ψ e₂
    have hxy : (ψ e₁).re ^ 2 < 1 ∨ (ψ e₂).re ^ 2 < 1 := by
      by_contra hc
      push_neg at hc
      have ex : (ψ e₁).re ^ 2 = 1 := le_antisymm hx hc.1
      have ey : (ψ e₂).re ^ 2 = 1 := le_antisymm hy hc.2
      apply h0
      rw [fourier_divergence e₁ e₂ cx cy d hd ψ, char_sub_neg_eq_zero ψ e₁ ex,
        char_sub_neg_eq_zero ψ e₂ ey]
      ring
    have ht := multiplier_sq_lt_one (ψ e₁).re (ψ e₂).re hx hy hxy N hN
    have hlt : (1 - (1 - ((ψ e₁).re ^ 2 + (ψ e₂).re ^ 2) / 2)
        * ∑ k in Finset.range N, (((ψ e₁).re + (ψ e₂).re) / 2) ^ k)
        * (1 - (1 - ((ψ e₁).re ^ 2 + (ψ e₂).re ^ 2) / 2)
        * ∑ k in Finset.range N, (((ψ e₁).re + (ψ e₂).re) / 2) ^ k)
        * Complex.normSq (fourierSum (fun x => (d x : ℂ)) ψ)
        < Complex.normSq (fourierSum (fun x => (d x : ℂ)) ψ) := by
      rw [← pow_two]
      calc _ < 1 * Complex.normSq (fourierSum (fun x => (d x : ℂ)) ψ) :=
            mul_lt_mul_of_pos_right ht hpos
        _ = _ := one_mul _
    exact ⟨hlt.le, fun _ => hlt⟩

/-- On a finite abelian group with two shift directions `e₁`, `e₂`: the divergence after
a projection with `N ≥ 1` Jacobi iterations from zero pressure has a strictly smaller
sum of squares than the divergence before, unless that is zero everywhere. -/
theorem sum_sq_projected_lt [DecidableEq G]
    (hd : ∀ x, d x = 1 / 2 * (cx (x + e₁) - cx (x - e₁) + cy (x + e₂) - cy (x - e₂)))
    (hp0 : ∀ x, p 0 x = 0)
    (hps : ∀ n x, p (n + 1) x =
      (p n (x - e₁) + p n (x + e₁) + p n (x - e₂) + p n (x + e₂) - d x) * (1 / 4))
    (hd' : ∀ x, d' x = d x - 1 / 2 * (p N (x + (e₁ + e₁)) + p N (x - (e₁ + e₁))
      + p N (x + (e₂ + e₂)) + p N (x - (e₂ + e₂)) - 4 * p N x))
    (hN : 1 ≤ N) (hne : ∃ x, d x ≠ 0) :
    ∑ x, d' x ^ 2 < ∑ x, d x ^ 2 := by
  obtain ⟨x0, hx0⟩ := hne
  have hcard : (0 : ℝ) < (Fintype.card G : ℝ) := by
    exact_mod_cast Fintype.card_pos_iff.2 ⟨x0⟩
  have hsum_pos : 0 < ∑ x, d x ^ 2 := by
    have hle : d x0 ^ 2 ≤ ∑ x, d x ^ 2 :=
      Finset.single_le_sum (f := fun x => d x ^ 2) (fun x _ => sq_nonneg (d x))
        (Finset.mem_univ x0)
    have : 0 < d x0 ^ 2 := by positivity
    linarith
  have hP := parseval d
  have hP' := parseval d'
  have hall := normSq_projected_le e₁ e₂ cx cy d d' p N hd hp0 hps hd' hN
  have hex : ∃ ψ : AddChar G ℂ, fourierSum (fun x => (d x : ℂ)) ψ ≠ 0 := by
    by_contra hc
    push_neg at hc
    have : ∑ ψ : AddChar G ℂ, Complex.normSq (fourierSum (fun x => (d x : ℂ)) ψ) = 0 :=
      Finset.sum_eq_zero (fun ψ _ => by rw [hc ψ]; simp)
    rw [this] at hP
    have : 0 < (Fintype.card G : ℝ) * ∑ x, d x ^ 2 := mul_pos hcard hsum_pos
    linarith
  obtain ⟨ψ0, hψ0⟩ := hex
  have hlt : ∑ ψ : AddChar G ℂ, Complex.normSq (fourierSum (fun x => (d' x : ℂ)) ψ)
      < ∑ ψ : AddChar G ℂ, Complex.normSq (fourierSum (fun x => (d x : ℂ)) ψ) :=
    Finset.sum_lt_sum (fun ψ _ => (hall ψ).1) ⟨ψ0, Finset.mem_univ ψ0, (hall ψ0).2 hψ0⟩
  rw [hP, hP'] at hlt
  exact lt_of_mul_lt_mul_left hlt hcard.le

end Projected

/-! ### The grid with wrap-around addressing as a torus -/

theorem sum_range_eq_sum_zmod (W : Nat) [NeZero W] {M : Type} [AddCommMonoid M]
    (f : Int → M) :
    ∑ i in Finset.range W, f (i : Int) = ∑ a : ZMod W, f (a.val : Int) := by
  cases W with
  | zero => exact absurd rfl (NeZero.ne 0)
  | succ m => exact (Fin.sum_univ_eq_sum_range (fun i : ℕ => f (i : Int)) (m + 1)).symm

section Torus

variable {α : Type}
variable (W H : Nat) [NeZero W] [NeZero H]

theorem cell_repeat_eq_onTorus (T : Int → Int → Vec4 α) (i j : Int) :
    cell repeatWrap W H T i j = onTorus W H T ((i : ZMod W), (j : ZMod H)) := by
  simp only [cell, repeatWrap, onTorus, ZMod.val_intCast]

theorem cell_val (T : Int → Int → Vec4 α) (x : ZMod W × ZMod H) (a b : Int) :
    cell repeatWrap W H T ((x.1.val : Int) + a) ((x.2.val : Int) + b)
      = onTorus W H T (x + ((a : ZMod W), (b : ZMod H))) := by
  rw [cell_repeat_eq_onTorus]
  congr 1
  ext <;> simp

theorem cell_val_right (T : Int → Int → Vec4 α) (x : ZMod W × ZMod H) :
    cell repeatWrap W H T ((x.1.val : Int) + 1) (x.2.val : Int) = onTorus W H T (x + (1, 0)) := by
  have h := cell_val W H T x 1 0
  simpa using h

theorem cell_val_left (T : Int → Int → Vec4 α) (x : ZMod W × ZMod H) :
    cell repeatWrap W H T ((x.1.val : Int) - 1) (x.2.val : Int) = onTorus W H T (x - (1, 0)) := by
  have h := cell_val W H T x (-1) 0
  simpa [sub_eq_add_neg] using h

theorem cell_val_up (T : Int → Int → Vec4 α) (x : ZMod W × ZMod H) :
    cell repeatWrap W H T (x.1.val : Int) ((x.2.val : Int) + 1) = onTorus W H T (x + (0, 1)) := by
  have h := cell_val W H T x 0 1
  simpa using h

theorem cell_val_down (T : Int → Int → Vec4 α) (x : ZMod W × ZMod H) :
    cell repeatWrap W H T (x.1.val : Int) ((x.2.val : Int) - 1) = onTorus W H T (x - (0, 1)) := by
  have h := cell_val W H T x 0 (-1)
  simpa [sub_eq_add_neg] using h

theorem cell_val_self (T : Int → Int → Vec4 α) (x : ZMod W × ZMod H) :
    cell repeatWrap W H T (x.1.val : Int) (x.2.val : Int) = onTorus W H T x := by
  have h := cell_val W H T x 0 0
  simpa using h

theorem onTorus_divergencePass [LinearOrderedField α] [FloorRing α]
    (T : Int → Int → Vec4 α) (x : ZMod W × ZMod H) :
    onTorus W H (divergencePass repeatWrap W H T) x =
      ⟨1 / 2 * ((onTorus W H T (x + (1, 0))).x - (onTorus W H T (x - (1, 0))).x
        + (onTorus W H T (x + (0, 1))).y - (onTorus W H T (x - (0, 1))).y), 0, 0, 1⟩ := by
  have hW : 0 < W := Nat.pos_of_ne_zero (NeZero.ne W)
  have hH : 0 < H := Nat.pos_of_ne_zero (NeZero.ne H)
  rw [onTorus, divergencePass_apply _ _ _ _ hW hH, cell_val_right, cell_val_left, cell_val_up,
    cell_val_down]

theorem onTorus_pressurePass [LinearOrderedField α] [FloorRing α]
    (div P : Int → Int → Vec4 α) (x : ZMod W × ZMod H) :
    onTorus W H (pressurePass repeatWrap W H div P) x =
      ⟨((onTorus W H P (x - (1, 0))).x + (onTorus W H P (x + (1, 0))).x
        + (onTorus W H P (x - (0, 1))).x + (onTorus W H P (x + (0, 1))).x
        - (onTorus W H div x).x) * (1 / 4), 0, 0, 1⟩ := by
  have hW : 0 < W := Nat.pos_of_ne_zero (NeZero.ne W)
  have hH : 0 < H := Nat.pos_of_ne_zero (NeZero.ne H)
  rw [onTorus, pressurePass_apply _ _ _ _ _ hW hH, cell_val_right, cell_val_left, cell_val_up,
    cell_val_down, cell_val_self]

theorem onTorus_gradientSubtractPass [LinearOrderedField α] [FloorRing α]
    (P vel : Int → Int → Vec4 α) (x : ZMod W × ZMod H) :
    onTorus W H (gradientSubtractPass repeatWrap W H P vel) x =
      ⟨(onTorus W H vel x).x
          - ((onTorus W H P (x + (1, 0))).x - (onTorus W H P (x - (1, 0))).x),
        (onTorus W H vel x).y
          - ((onTorus W H P (x + (0, 1))).x - (onTorus W H P (x - (0, 1))).x), 0, 1⟩ := by
  have hW : 0 < W := Nat.pos_of_ne_zero (NeZero.ne W)
  have hH : 0 < H := Nat.pos_of_ne_zero (NeZero.ne H)
  rw [onTorus, gradientSubtractPass_apply _ _ _ _ _ hW hH, cell_val_right, cell_val_left,
    cell_val_up, cell_val_down, cell_val_self]

theorem sumSquares_eq_sum_onTorus [LinearOrderedField α] (T : Int → Int → Vec4 α) :
    sumSquares W H T = ∑ x : ZMod W × ZMod H, (onTorus W H T x).x ^ 2 := by
  rw [Fintype.sum_prod_type]
  simp only [sumSquares, onTorus]
  rw [sum_range_eq_sum_zmod W (fun i => ∑ j in Finset.range H, (T i j).x ^ 2)]
  refine Finset.sum_congr rfl (fun a _ => ?_)
  exact sum_range_eq_sum_zmod H (fun j => (T (a.val : Int) j).x ^ 2)

end Torus

section General

variable (W H : Nat) [NeZero W] [NeZero H]

theorem onTorus_jacobi_zero (div : Int → Int → Vec4 ℝ) (x : ZMod W × ZMod H) :
    (onTorus W H (jacobi repeatWrap W H 0 div) x).x = 0 := by
  simp [onTorus, jacobi, zeroTexture]

theorem onTorus_jacobi_succ (div : Int → Int → Vec4 ℝ) (n : Nat) (x : ZMod W × ZMod H) :
    (onTorus W H (jacobi repeatWrap W H (n + 1) div) x).x =
      ((onTorus W H (jacobi repeatWrap W H n div) (x - (1, 0))).x
        + (onTorus W H (jacobi repeatWrap W H n div) (x + (1, 0))).x
        + (onTorus W H (jacobi repeatWrap W H n div) (x - (0, 1))).x
        + (onTorus W H (jacobi repeatWrap W H n div) (x + (0, 1))).x
        - (onTorus W H div x).x) * (1 / 4) := by
  have h : jacobi repeatWrap W H (n + 1) div
      = pressurePass repeatWrap W H div (jacobi repeatWrap W H n div) := by
    simp only [jacobi, Function.iterate_succ_apply']
  rw [h, onTorus_pressurePass]

theorem onTorus_project (N : Nat) (vel : Int → Int → Vec4 ℝ) (x : ZMod W × ZMod H) :
    (onTorus W H (divergencePass repeatWrap W H (project repeatWrap W H N vel)) x).x =
      (onTorus W H (divergencePass repeatWrap W H vel) x).x
        - 1 / 2 * ((onTorus W H (jacobi repeatWrap W H N (divergencePass repeatWrap W H vel))
              (x + ((1, 0) + (1, 0)))).x
          + (onTorus W H (jacobi repeatWrap W H N (divergencePass repeatWrap W H vel))
              (x - ((1, 0) + (1, 0)))).x
          + (onTorus W H (jacobi repeatWrap W H N (divergencePass repeatWrap W H vel))
              (x + ((0, 1) + (0, 1)))).x
          + (onTorus W H (jacobi repeatWrap W H N (divergencePass repeatWrap W H vel))
              (x - ((0, 1) + (0, 1)))).x
          - 4 * (onTorus W H (jacobi repeatWrap W H N (divergencePass repeatWrap W H vel))
              x).x) := by
  rw [onTorus_divergencePass, onTorus_divergencePass]
  simp only [project, onTorus_gradientSubtractPass]
  have a1 : x + (1, 0) - (1, 0) = x := add_sub_cancel_right x _
  have a2 : x - (1, 0) + (1, 0) = x := sub_add_cancel x _
  have a3 : x + (0, 1) - (0, 1) = x := add_sub_cancel_right x _
  have a4 : x - (0, 1) + (0, 1) = x := sub_add_cancel x _
  have b1 : x + (1, 0) + (1, 0) = x + (((1 : ZMod W), (0 : ZMod H)) + (1, 0)) := add_assoc _ _ _
  have b2 : x - (1, 0) - (1, 0) = x - (((1 : ZMod W), (0 : ZMod H)) + (1, 0)) := sub_sub _ _ _
  have b3 : x + (0, 1) + (0, 1) = x + (((0 : ZMod W), (1 : ZMod H)) + (0, 1)) := add_assoc _ _ _
  have b4 : x - (0, 1) - (0, 1) = x - (((0 : ZMod W), (1 : ZMod H)) + (0, 1)) := sub_sub _ _ _
  rw [a1, a2, a3, a4, b1, b2, b3, b4]
  ring

theorem sumSquares_project_repeat_lt (N : Nat) (hN : 1 ≤ N) (vel : Int → Int → Vec4 ℝ)
    (hne : ∃ x : ZMod W × ZMod H, (onTorus W H (divergencePass repeatWrap W H vel) x).x ≠ 0) :
    sumSquares W H (divergencePass repeatWrap W H (project repeatWrap W H N vel))
      < sumSquares W H (divergencePass repeatWrap W H vel) := by
  rw [sumSquares_eq_sum_onTorus, sumSquares_eq_sum_onTorus]
  exact sum_sq_projected_lt ((1, 0) : ZMod W × ZMod H) (0, 1)
    (fun x => (onTorus W H vel x).x) (fun x => (onTorus W H vel x).y)
    (fun x => (onTorus W H (divergencePass repeatWrap W H vel) x).x)
    (fun x => (onTorus W H (divergencePass repeatWrap W H (project repeatWrap W H N vel)) x).x)
    (fun n x => (onTorus W H (jacobi repeatWrap W H n (divergencePass repeatWrap W H vel)) x).x)
    N
    (fun x => by
      show (onTorus W H (divergencePass repeatWrap W H vel) x).x = _
      rw [onTorus_divergencePass])
    (fun x => onTorus_jacobi_zero W H _ x)
    (fun n x => onTorus_jacobi_succ W H _ n x)
    (fun x => onTorus_project W H N vel x)
    hN hne

end General

/-! ### Away from the edge, clamp-to-edge and wrap-around agree -/

theorem edgeAddressing_clampToEdge : EdgeAddressing clampToEdge := by
  intro n i hn
  simp only [clampToEdge]
  constructor
  · intro h0 h1
    omega
  · intro h
    omega

theorem edgeAddressing_repeatWrap : EdgeAddressing repeatWrap := by
  intro n i hn
  have hn' : (0 : Int) < n := by exact_mod_cast hn
  simp only [repeatWrap]
  constructor
  · intro h0 h1
    exact Int.emod_eq_of_lt h0 h1
  · rintro (h | h)
    · right
      subst h
      have h1 : (-1 + (n : Int)) % (n : Int) = (-1) % (n : Int) := Int.add_emod_self
      rw [← h1]
      have h2 : (-1 + (n : Int)) % (n : Int) = -1 + (n : Int) :=
        Int.emod_eq_of_lt (by omega) (by omega)
      rw [h2]
      ring
    · left
      subst h
      exact Int.emod_self

theorem addressed_index (addr : Nat → Int → Int) (ha : EdgeAddressing addr) (n : Nat)
    (hn : 0 < n) (i : Int) (h0 : -1 ≤ i) (h1 : i ≤ n) :
    (0 ≤ i ∧ i < n ∧ addr n i = i) ∨
      ((i = -1 ∨ i = n) ∧ (addr n i = 0 ∨ addr n i = (n : Int) - 1)) := by
  by_cases h : 0 ≤ i ∧ i < n
  · exact Or.inl ⟨h.1, h.2, (ha n i hn).1 h.1 h.2⟩
  · have hcase : i = -1 ∨ i = n := by omega
    exact Or.inr ⟨hcase, (ha n i hn).2 hcase⟩

theorem addressed_cell (addr : Nat → Int → Int) (ha : EdgeAddressing addr) (W H : Nat)
    (hW : 0 < W) (hH : 0 < H) (i j i' j' : Int) (hg : inGrid W H i j)
    (hi : i - 1 ≤ i' ∧ i' ≤ i + 1) (hj : j - 1 ≤ j' ∧ j' ≤ j + 1) :
    inGrid W H (addr W i') (addr H j') ∧
      (inGrid W H i' j' → addr W i' = i' ∧ addr H j' = j') ∧
      (¬ inGrid W H i' j' → nearEdge 1 W H (addr W i') (addr H j')) ∧
      ∀ m : Nat, nearEdge m W H i j → nearEdge (m + 1) W H (addr W i') (addr H j') := by
  unfold inGrid at hg
  have hx := addressed_index addr ha W hW i' (by omega) (by omega)
  have hy := addressed_index addr ha H hH j' (by omega) (by omega)
  have hW' : (0 : Int) < W := by exact_mod_cast hW
  have hH' : (0 : Int) < H := by exact_mod_cast hH
  unfold inGrid nearEdge
  refine ⟨?_, ?_, ?_, ?_⟩
  · rcases hx with ⟨a1, a2, a3⟩ | ⟨-, a3 | a3⟩ <;> rcases hy with ⟨b1, b2, b3⟩ | ⟨-, b3 | b3⟩ <;>
      omega
  · intro h
    rcases hx with ⟨a1, a2, a3⟩ | ⟨a0, -⟩ <;> rcases hy with ⟨b1, b2, b3⟩ | ⟨b0, -⟩ <;>
      first | exact ⟨a3, b3⟩ | omega
  · intro h
    rcases hx with ⟨a1, a2, a3⟩ | ⟨a0, a3 | a3⟩ <;> rcases hy with ⟨b1, b2, b3⟩ | ⟨b0, b3 | b3⟩ <;>
      push_cast <;> omega
  · intro m hm
    rcases hx with ⟨a1, a2, a3⟩ | ⟨a0, a3 | a3⟩ <;> rcases hy with ⟨b1, b2, b3⟩ | ⟨b0, b3 | b3⟩ <;>
      push_cast <;> omega

section Reduction

variable {α : Type} [LinearOrderedField α]

theorem cell_zero (addr : Nat → Int → Int) (ha : EdgeAddressing addr) (W H : Nat)
    (hW : 0 < W) (hH : 0 < H) (T : Int → Int → Vec4 α) (m : Nat)
    (hz : ZeroNear (m + 1) W H T) (i j i' j' : Int) (hg : inGrid W H i j)
    (hn : nearEdge m W H i j) (hi : i - 1 ≤ i' ∧ i' ≤ i + 1) (hj : j - 1 ≤ j' ∧ j' ≤ j + 1) :
    (cell addr W H T i' j').x = 0 ∧ (cell addr W H T i' j').y = 0 := by
  have h := addressed_cell addr ha W H hW hH i j i' j' hg hi hj
  exact hz _ _ h.1 (h.2.2.2 m hn)

theorem cell_agree (addr addr' : Nat → Int → Int) (ha : EdgeAddressing addr)
    (ha' : EdgeAddressing addr') (W H : Nat) (hW : 0 < W) (hH : 0 < H)
    (T T' : Int → Int → Vec4 α) (hag : AgreeOn W H T T') (hz : ZeroNear 1 W H T)
    (i j i' j' : Int) (hg : inGrid W H i j)
    (hi : i - 1 ≤ i' ∧ i' ≤ i + 1) (hj : j - 1 ≤ j' ∧ j' ≤ j + 1) :
    (cell addr W H T i' j').x = (cell addr' W H T' i' j').x ∧
      (cell addr W H T i' j').y = (cell addr' W H T' i' j').y := by
  have h := addressed_cell addr ha W H hW hH i j i' j' hg hi hj
  have h' := addressed_cell addr' ha' W H hW hH i j i' j' hg hi hj
  unfold cell
  by_cases hin : inGrid W H i' j'
  · rw [(h.2.1 hin).1, (h.2.1 hin).2, (h'.2.1 hin).1, (h'.2.1 hin).2]
    exact hag i' j' hin
  · have z := hz _ _ h.1 (h.2.2.1 hin)
    have z' := hz _ _ h'.1 (h'.2.2.1 hin)
    have e := hag _ _ h'.1
    rw [z.1, z.2, ← e.1, ← e.2, z'.1, z'.2]
    exact ⟨rfl, rfl⟩

theorem zeroNear_mono (W H : Nat) (T : Int → Int → Vec4 α) (m m' : Nat) (h : m ≤ m')
    (hz : ZeroNear m' W H T) : ZeroNear m W H T := by
  intro i j hg hn
  apply hz i j hg
  unfold nearEdge at hn ⊢
  omega

theorem zeroNear_zeroTexture (m W H : Nat) : ZeroNear m W H (zeroTexture : Int → Int → Vec4 α) :=
  fun _ _ _ _ => ⟨rfl, rfl⟩

theorem zeroNear_divergencePass [FloorRing α] (addr : Nat → Int → Int) (ha : EdgeAddressing addr)
    (W H : Nat) (hW : 0 < W) (hH : 0 < H) (T : Int → Int → Vec4 α) (m : Nat)
    (hz : ZeroNear (m + 1) W H T) : ZeroNear m W H (divergencePass addr W H T) := by
  intro i j hg hn
  rw [divergencePass_apply _ _ _ _ hW hH]
  have h1 := cell_zero addr ha W H hW hH T m hz i j (i + 1) j hg hn (by omega) (by omega)
  have h2 := cell_zero addr ha W H hW hH T m hz i j (i - 1) j hg hn (by omega) (by omega)
  have h3 := cell_zero addr ha W H hW hH T m hz i j i (j + 1) hg hn (by omega) (by omega)
  have h4 := cell_zero addr ha W H hW hH T m hz i j i (j - 1) hg hn (by omega) (by omega)
  simp [h1.1, h2.1, h3.2, h4.2]

theorem zeroNear_pressurePass [FloorRing α] (addr : Nat → Int → Int) (ha : EdgeAddressing addr)
    (W H : Nat) (hW : 0 < W) (hH : 0 < H) (D P : Int → Int → Vec4 α) (m : Nat)
    (hzP : ZeroNear (m + 1) W H P) (hzD : ZeroNear m W H D) :
    ZeroNear m W H (pressurePass addr W H D P) := by
  intro i j hg hn
  rw [pressurePass_apply _ _ _ _ _ hW hH]
  have h1 := cell_zero addr ha W H hW hH P m hzP i j (i + 1) j hg hn (by omega) (by omega)
  have h2 := cell_zero addr ha W H hW hH P m hzP i j (i - 1) j hg hn (by omega) (by omega)
  have h3 := cell_zero addr ha W H hW hH P m hzP i j i (j + 1) hg hn (by omega) (by omega)
  have h4 := cell_zero addr ha W H hW hH P m hzP i j i (j - 1) hg hn (by omega) (by omega)
  have hc := addressed_cell addr ha W H hW hH i j i j hg (by omega) (by omega)
  have h5 : (cell addr W H D i j).x = 0 := by
    unfold cell
    rw [(hc.2.1 hg).1, (hc.2.1 hg).2]
    exact (hzD i j hg hn).1
  simp [h1.1, h2.1, h3.1, h4.1, h5]

theorem zeroNear_gradientSubtractPass [FloorRing α] (addr : Nat → Int → Int) (ha : EdgeAddressing addr)
    (W H : Nat) (hW : 0 < W) (hH : 0 < H) (P V : Int → Int → Vec4 α) (m : Nat)
    (hzP : ZeroNear (m + 1) W H P) (hzV : ZeroNear m W H V) :
    ZeroNear m W H (gradientSubtractPass addr W H P V) := by
  intro i j hg hn
  rw [gradientSubtractPass_apply _ _ _ _ _ hW hH]
  have h1 := cell_zero addr ha W H hW hH P m hzP i j (i + 1) j hg hn (by omega) (by omega)
  have h2 := cell_zero addr ha W H hW hH P m hzP i j (i - 1) j hg hn (by omega) (by omega)
  have h3 := cell_zero addr ha W H hW hH P m hzP i j i (j + 1) hg hn (by omega) (by omega)
  have h4 := cell_zero addr ha W H hW hH P m hzP i j i (j - 1) hg hn (by omega) (by omega)
  have hc := addressed_cell addr ha W H hW hH i j i j hg (by omega) (by omega)
  have h5 : (cell addr W H V i j).x = 0 ∧ (cell addr W H V i j).y = 0 := by
    unfold cell
    rw [(hc.2.1 hg).1, (hc.2.1 hg).2]
    exact hzV i j hg hn
  simp [h1.1, h2.1, h3.1, h4.1, h5.1, h5.2]

theorem zeroNear_jacobi [FloorRing α] (addr : Nat → Int → Int) (ha : EdgeAddressing addr)
    (W H : Nat) (hW : 0 < W) (hH : 0 < H) (D : Int → Int → Vec4 α) (M : Nat) (hzD : ZeroNear M W H D) :
    ∀ n : Nat, ZeroNear (M + 1 - n) W H (jacobi addr W H n D) := by
  intro n
  induction n with
  | zero => exact zeroNear_zeroTexture _ _ _
  | succ n ih =>
    have e : jacobi addr W H (n + 1) D = pressurePass addr W H D (jacobi addr W H n D) := by
      simp only [jacobi, Function.iterate_succ_apply']
    rw [e]
    by_cases hn : n ≤ M
    · have e1 : M + 1 - n = (M + 1 - (n + 1)) + 1 := by omega
      rw [e1] at ih
      exact zeroNear_pressurePass addr ha W H hW hH D _ _ ih
        (zeroNear_mono W H D _ M (by omega) hzD)
    · have e0 : M + 1 - (n + 1) = 0 := by omega
      rw [e0]
      intro i j hg hne
      unfold inGrid at hg
      unfold nearEdge at hne
      push_cast at hne
      omega

theorem agreeOn_divergencePass [FloorRing α] (addr : Nat → Int → Int) (ha : EdgeAddressing addr)
    (W H : Nat) (hW : 0 < W) (hH : 0 < H) (addr' : Nat → Int → Int)
    (ha' : EdgeAddressing addr') (T T' : Int → Int → Vec4 α) (hag : AgreeOn W H T T')
    (hz : ZeroNear 1 W H T) :
    AgreeOn W H (divergencePass addr W H T) (divergencePass addr' W H T') := by
  intro i j hg
  rw [divergencePass_apply _ _ _ _ hW hH, divergencePass_apply _ _ _ _ hW hH]
  have h1 := cell_agree addr addr' ha ha' W H hW hH T T' hag hz i j (i + 1) j hg
    (by omega) (by omega)
  have h2 := cell_agree addr addr' ha ha' W H hW hH T T' hag hz i j (i - 1) j hg
    (by omega) (by omega)
  have h3 := cell_agree addr addr' ha ha' W H hW hH T T' hag hz i j i (j + 1) hg
    (by omega) (by omega)
  have h4 := cell_agree addr addr' ha ha' W H hW hH T T' hag hz i j i (j - 1) hg
    (by omega) (by omega)
  simp [h1.1, h2.1, h3.2, h4.2]

theorem agreeOn_pressurePass [FloorRing α] (addr : Nat → Int → Int) (ha : EdgeAddressing addr)
    (W H : Nat) (hW : 0 < W) (hH : 0 < H) (addr' : Nat → Int → Int)
    (ha' : EdgeAddressing addr') (D D' P P' : Int → Int → Vec4 α) (hD : AgreeOn W H D D')
    (hP : AgreeOn W H P P') (hz : ZeroNear 1 W H P) :
    AgreeOn W H (pressurePass addr W H D P) (pressurePass addr' W H D' P') := by
  intro i j hg
  rw [pressurePass_apply _ _ _ _ _ hW hH, pressurePass_apply _ _ _ _ _ hW hH]
  have h1 := cell_agree addr addr' ha ha' W H hW hH P P' hP hz i j (i + 1) j hg
    (by omega) (by omega)
  have h2 := cell_agree addr addr' ha ha' W H hW hH P P' hP hz i j (i - 1) j hg
    (by omega) (by omega)
  have h3 := cell_agree addr addr' ha ha' W H hW hH P P' hP hz i j i (j + 1) hg
    (by omega) (by omega)
  have h4 := cell_agree addr addr' ha ha' W H hW hH P P' hP hz i j i (j - 1) hg
    (by omega) (by omega)
  have hc := addressed_cell addr ha W H hW hH i j i j hg (by omega) (by omega)
  have hc' := addressed_cell addr' ha' W H hW hH i j i j hg (by omega) (by omega)
  have h5 : (cell addr W H D i j).x = (cell addr' W H D' i j).x := by
    unfold cell
    rw [(hc.2.1 hg).1, (hc.2.1 hg).2, (hc'.2.1 hg).1, (hc'.2.1 hg).2]
    exact (hD i j hg).1
  simp [h1.1, h2.1, h3.1, h4.1, h5]

theorem agreeOn_gradientSubtractPass [FloorRing α] (addr : Nat → Int → Int) (ha : EdgeAddressing addr)
    (W H : Nat) (hW : 0 < W) (hH : 0 < H) (addr' : Nat → Int → Int)
    (ha' : EdgeAddressing addr') (P P' V V' : Int → Int → Vec4 α)
    (hP : AgreeOn W H P P') (hz : ZeroNear 1 W H P) (hV : AgreeOn W H V V') :
    AgreeOn W H (gradientSubtractPass addr W H P V) (gradientSubtractPass addr' W H P' V') := by
  intro i j hg
  rw [gradientSubtractPass_apply _ _ _ _ _ hW hH, gradientSubtractPass_apply _ _ _ _ _ hW hH]
  have h1 := cell_agree addr addr' ha ha' W H hW hH P P' hP hz i j (i + 1) j hg
    (by omega) (by omega)
  have h2 := cell_agree addr addr' ha ha' W H hW hH P P' hP hz i j (i - 1) j hg
    (by omega) (by omega)
  have h3 := cell_agree addr addr' ha ha' W H hW hH P P' hP hz i j i (j + 1) hg
    (by omega) (by omega)
  have h4 := cell_agree addr addr' ha ha' W H hW hH P P' hP hz i j i (j - 1) hg
    (by omega) (by omega)
  have hc := addressed_cell addr ha W H hW hH i j i j hg (by omega) (by omega)
  have hc' := addressed_cell addr' ha' W H hW hH i j i j hg (by omega) (by omega)
  have h5 : (cell addr W H V i j).x = (cell addr' W H V' i j).x ∧
      (cell addr W H V i j).y = (cell addr' W H V' i j).y := by
    unfold cell
    rw [(hc.2.1 hg).1, (hc.2.1 hg).2, (hc'.2.1 hg).1, (hc'.2.1 hg).2]
    exact hV i j hg
  simp [h1.1, h2.1, h3.1, h4.1, h5.1, h5.2]

theorem agreeOn_jacobi [FloorRing α] (addr : Nat → Int → Int) (ha : EdgeAddressing addr)
    (W H : Nat) (hW : 0 < W) (hH : 0 < H) (addr' : Nat → Int → Int)
    (ha' : EdgeAddressing addr') (D D' : Int → Int → Vec4 α) (hD : AgreeOn W H D D') (M : Nat)
    (hzD : ZeroNear M W H D) :
    ∀ n : Nat, n ≤ M + 1 → AgreeOn W H (jacobi addr W H n D) (jacobi addr' W H n D') := by
  intro n
  induction n with
  | zero => intro _ i j _; exact ⟨rfl, rfl⟩
  | succ n ih =>
    intro hn
    have e : jacobi addr W H (n + 1) D = pressurePass addr W H D (jacobi addr W H n D) := by
      simp only [jacobi, Function.iterate_succ_apply']
    have e' : jacobi addr' W H (n + 1) D'
        = pressurePass addr' W H D' (jacobi addr' W H n D') := by
      simp only [jacobi, Function.iterate_succ_apply']
    rw [e, e']
    have hz := zeroNear_jacobi addr ha W H hW hH D M hzD n
    exact agreeOn_pressurePass addr ha W H hW hH addr' ha' D D' _ _ hD (ih (by omega))
      (zeroNear_mono W H _ 1 _ (by omega) hz)

theorem agreeOn_projected [FloorRing α] (addr : Nat → Int → Int) (ha : EdgeAddressing addr)
    (W H : Nat) (hW : 0 < W) (hH : 0 < H) (addr' : Nat → Int → Int)
    (ha' : EdgeAddressing addr') (V : Int → Int → Vec4 α) (N : Nat)
    (hz : ZeroNear (N + 2) W H V) :
    AgreeOn W H (divergencePass addr W H V) (divergencePass addr' W H V) ∧
      AgreeOn W H (divergencePass addr W H (project addr W H N V))
        (divergencePass addr' W H (project addr' W H N V)) := by
  have hVV : AgreeOn W H V V := fun _ _ _ => ⟨rfl, rfl⟩
  have hz1 : ZeroNear 1 W H V := zeroNear_mono W H V 1 _ (by omega) hz
  have hD := agreeOn_divergencePass addr ha W H hW hH addr' ha' V V hVV hz1
  have hzD : ZeroNear (N + 1) W H (divergencePass addr W H V) :=
    zeroNear_divergencePass addr ha W H hW hH V (N + 1) hz
  have hP := agreeOn_jacobi addr ha W H hW hH addr' ha' _ _ hD (N + 1) hzD N (by omega)
  have hzP := zeroNear_jacobi addr ha W H hW hH _ (N + 1) hzD N
  have e2 : N + 1 + 1 - N = 1 + 1 := by omega
  rw [e2] at hzP
  have hzP1 : ZeroNear 1 W H (jacobi addr W H N (divergencePass addr W H V)) :=
    zeroNear_mono W H _ 1 _ (by omega) hzP
  have hV' := agreeOn_gradientSubtractPass addr ha W H hW hH addr' ha' _ _ V V hP hzP1 hVV
  have hzV' : ZeroNear 1 W H (gradientSubtractPass addr W H
      (jacobi addr W H N (divergencePass addr W H V)) V) :=
    zeroNear_gradientSubtractPass addr ha W H hW hH _ V 1 hzP hz1
  exact ⟨hD, agreeOn_divergencePass addr ha W H hW hH addr' ha' _ _ hV' hzV'⟩

end Reduction

theorem sumSquares_congr {α : Type} [LinearOrderedField α] (W H : Nat)
    (T T' : Int → Int → Vec4 α) (h : AgreeOn W H T T') :
    sumSquares W H T = sumSquares W H T' := by
  unfold sumSquares
  refine Finset.sum_congr rfl (fun i hi => Finset.sum_congr rfl (fun j hj => ?_))
  have hi' := Finset.mem_range.1 hi
  have hj' := Finset.mem_range.1 hj
  rw [(h i j ⟨by omega, by exact_mod_cast hi', by omega, by exact_mod_cast hj'⟩).1]

theorem sumSquares_project_clamp_lt (W H N : Nat) (velocity : Int → Int → Vec4 ℝ)
    (hN : 1 ≤ N) (hz : ZeroNear (N + 2) W H velocity)
    (hdiv : ∃ i j : Nat, i < W ∧ j < H ∧
      (divergencePass clampToEdge W H velocity i j).x ≠ 0) :
    sumSquares W H (divergencePass clampToEdge W H (project clampToEdge W H N velocity))
      < sumSquares W H (divergencePass clampToEdge W H velocity) := by
  obtain ⟨i0, j0, hi0, hj0, hne⟩ := hdiv
  have hW : 0 < W := lt_of_le_of_lt (Nat.zero_le _) hi0
  have hH : 0 < H := lt_of_le_of_lt (Nat.zero_le _) hj0
  haveI : NeZero W := ⟨hW.ne'⟩
  haveI : NeZero H := ⟨hH.ne'⟩
  have hag := agreeOn_projected clampToEdge edgeAddressing_clampToEdge W H hW hH repeatWrap
    edgeAddressing_repeatWrap velocity N hz
  rw [sumSquares_congr W H _ _ hag.1, sumSquares_congr W H _ _ hag.2]
  apply sumSquares_project_repeat_lt W H N hN velocity
  refine ⟨((i0 : ZMod W), (j0 : ZMod H)), ?_⟩
  simp only [onTorus, ZMod.val_natCast_of_lt hi0, ZMod.val_natCast_of_lt hj0]
  rw [← (hag.1 i0 j0 ⟨by omega, by exact_mod_cast hi0, by omega, by exact_mod_cast hj0⟩).1]
  exact hne

/-- C4 (amended): on a grid with clamp-to-edge addressing, for every `N ≥ 1` and every
velocity field that is zero on the `N + 2` outermost columns and rows and whose
divergence is not zero everywhere, the projection with `N` Jacobi iterations from a zero
pressure field gives a velocity field whose divergence has a strictly smaller
root-mean-square magnitude. -/
theorem project_clamp_rms_lt (W H N : Nat) (velocity : Int → Int → Vec4 ℝ) (hN : 1 ≤ N)
    (hzero : ∀ i j : Nat, i < W → j < H →
      (i < N + 2 ∨ W ≤ i + (N + 2) ∨ j < N + 2 ∨ H ≤ j + (N + 2)) →
      (velocity i j).x = 0 ∧ (velocity i j).y = 0)
    (hdiv : ∃ i j : Nat, i < W ∧ j < H ∧
      (divergencePass clampToEdge W H velocity i j).x ≠ 0) :
    rms Real.sqrt W H (divergencePass clampToEdge W H (project clampToEdge W H N velocity))
      < rms Real.sqrt W H (divergencePass clampToEdge W H velocity) := by
  have hz : ZeroNear (N + 2) W H velocity := by
    intro i j hg hn
    unfold inGrid at hg
    unfold nearEdge at hn
    have hi : ((i.toNat : Nat) : Int) = i := Int.toNat_of_nonneg hg.1
    have hj : ((j.toNat : Nat) : Int) = j := Int.toNat_of_nonneg hg.2.2.1
    have h := hzero i.toNat j.toNat (by omega) (by omega) (by push_cast at hn; omega)
    rw [hi, hj] at h
    exact h
  have hlt := sumSquares_project_clamp_lt W H N velocity hN hz hdiv
  obtain ⟨i0, j0, hi0, hj0, -⟩ := hdiv
  have hW : (0 : ℝ) < (W : ℝ) := by exact_mod_cast lt_of_le_of_lt (Nat.zero_le _) hi0
  have hH : (0 : ℝ) < (H : ℝ) := by exact_mod_cast lt_of_le_of_lt (Nat.zero_le _) hj0
  have hnn : 0 ≤ sumSquares W H
      (divergencePass clampToEdge W H (project clampToEdge W H N velocity)) := by
    unfold sumSquares
    positivity
  unfold rms
  apply Real.sqrt_lt_sqrt
  · positivity
  · exact div_lt_div_of_pos_right hlt (mul_pos hW hH)

theorem impulse_zero (i j : Nat)
    (h : i < 1 + 2 ∨ 7 ≤ i + (1 + 2) ∨ j < 1 + 2 ∨ 7 ≤ j + (1 + 2)) :
    (impulse (i : Int) (j : Int) : Vec4 ℝ).x = 0 ∧ (impulse (i : Int) (j : Int) : Vec4 ℝ).y = 0 := by
  have hne : ¬ ((i : Int) = 3 ∧ (j : Int) = 3) := by omega
  simp [impulse, hne]

theorem impulse_divergence :
    ∃ i j : Nat, i < 7 ∧ j < 7 ∧
      (divergencePass clampToEdge 7 7 (impulse : Int → Int → Vec4 ℝ) i j).x ≠ 0 := by
  refine ⟨2, 3, by norm_num, by norm_num, ?_⟩
  simp only [divergencePass_apply clampToEdge 7 7 _ (by norm_num) (by norm_num), cell,
    clampToEdge, impulse]
  norm_num

/-- C4 (witness): the seven by seven grid whose only non-zero velocity is `(1, 0)` at the
centre texel `(3, 3)`, projected with one Jacobi iteration. -/
theorem project_clamp_rms_lt_witness :
    ((1 : Nat) ≤ 1 ∧
      (∀ i j : Nat, i < 7 → j < 7 →
        (i < 1 + 2 ∨ 7 ≤ i + (1 + 2) ∨ j < 1 + 2 ∨ 7 ≤ j + (1 + 2)) →
        (impulse (i : Int) (j : Int) : Vec4 ℝ).x = 0 ∧
          (impulse (i : Int) (j : Int) : Vec4 ℝ).y = 0) ∧
      ∃ i j : Nat, i < 7 ∧ j < 7 ∧
        (divergencePass clampToEdge 7 7 (impulse : Int → Int → Vec4 ℝ) i j).x ≠ 0) ∧
      rms Real.sqrt 7 7 (divergencePass clampToEdge 7 7
          (project clampToEdge 7 7 1 (impulse : Int → Int → Vec4 ℝ)))
        < rms Real.sqrt 7 7 (divergencePass clampToEdge 7 7 (impulse : Int → Int → Vec4 ℝ)) :=
  ⟨⟨le_refl 1, fun i j _ _ h => impulse_zero i j h, impulse_divergence⟩,
    project_clamp_rms_lt 7 7 1 impulse (le_refl 1) (fun i j _ _ h => impulse_zero i j h)
      impulse_divergence⟩

end Fluid
